import Mathlib

/-!
Shallow embedding of the weekly-report planning module of the KimiagarKhune
repository (`src/plans/views.py`, `src/plans/models.py`).

The persistent store (Django ORM) is modelled as an explicit `Store` record of
row lists together with auto-increment counters.  View functions become pure
state-passing functions; a Django exception that aborts a request is an
`Option String` / `Except String` error value paired with the store reached at
the abort point (Django performs no automatic rollback outside an explicit
transaction, and `save_weekly_report` / `copy_day_plan` use none).

Modelling conventions:
* `datetime` values are split into a calendar day number (`Int`) and seconds
  within the day; day 0 is taken to be a Monday so that `pyWeekday` matches
  Python's `date.weekday()` convention (Monday = 0 .. Sunday = 6).
* `week_start` / `week_end` are kept at day granularity: the endpoints are
  supplied as midnight ISO datetimes (see the `"2025-03-02T00:00:00"` comment
  in `save_weekly_report`).
* `save(update_fields=[...])` is modelled field-by-field (`djangoSave`),
  because `save_weekly_report` relies on it: only the listed fields of the
  in-memory row are written back.
* Request-marshalling concerns (JSON decoding, authentication, the advisor
  authorisation checks of `copy_day_plan`, `Student` existence checks) sit
  before the logic the claims are about and are outside the modelled scope.
-/

namespace KKh

/-- A Python `datetime.datetime`: calendar day number plus seconds within the
day.  Day 0 is a Monday (so `pyWeekday` agrees with `date.weekday()`). -/
structure PyDateTime where
  day : Int
  sec : Nat
deriving DecidableEq, Repr

/-- Python's `date.weekday()` for a day number: Monday = 0 .. Sunday = 6. -/
def pyWeekday (d : Int) : Nat := (d % 7).toNat


/-- `WEEKDAYS` (views.py line 854): Persian weekday names, Saturday first. -/
def WEEKDAYS : List String :=
  ["شنبه", "یکشنبه", "دوشنبه", "سه‌شنبه", "چهارشنبه", "پنج‌شنبه", "جمعه"]

/-- The `weekday_offset` dict of `save_weekly_report` (views.py 1310-1318):
day-name offsets relative to `week_start`, Saturday = 0 .. Friday = 6. -/
def weekdayOffsetTable : List (String × Int) :=
  [("شنبه", 0), ("یکشنبه", 1), ("دوشنبه", 2), ("سه‌شنبه", 3),
   ("چهارشنبه", 4), ("پنج‌شنبه", 5), ("جمعه", 6)]

/-- `weekday_offset.get(day_name, 0)` (views.py 1325). -/
def offsetOf (dayName : String) : Int :=
  (weekdayOffsetTable.lookup dayName).getD 0

/-- The `persian_weekday_mapping` dict of `copy_day_plan` (views.py
1456-1464): Python `weekday()` index to Persian day name. -/
def persianWeekdayMapping (w : Nat) : String :=
  match w with
  | 5 => "شنبه"
  | 6 => "یکشنبه"
  | 0 => "دوشنبه"
  | 1 => "سه‌شنبه"
  | 2 => "چهارشنبه"
  | 3 => "پنج‌شنبه"
  | 4 => "جمعه"
  | _ => ""

/-- One `BoxType` row (models.py 87-92). -/
structure BoxTypeRow where
  id : Nat
  name : String
  isDefault : Bool
deriving DecidableEq, Repr

/-- One `Lesson` row (models.py 68-76); `grade` is a non-nullable foreign key,
so the grade name is total. -/
structure LessonRow where
  id : Nat
  name : String
  gradeName : String
deriving DecidableEq, Repr

/-- One `Chapter` row (models.py 78-84); `track` is nullable. -/
structure ChapterRow where
  id : Nat
  lessonId : Nat
  chapterNumber : Int
  name : String
  track : Option String
deriving DecidableEq, Repr

/-- One `Box` row (models.py 94-103).  The `box_type` foreign key is carried
by the type's name (the code branches on `box_type.name`); `lesson` and
`chapter` are nullable foreign keys; `duration_minutes` is nullable. -/
structure BoxRow where
  id : Nat
  boxType : String
  lesson : Option Nat
  chapter : Option Nat
  optionalTestsCount : Int
  durationMinutes : Option Int
  name : Option String
  isDefault : Bool
deriving DecidableEq, Repr

/-- One `WeeklyReport` row (models.py 106-114).  Only the action names of the
append-only `logs` JSON array are retained. -/
structure ReportRow where
  id : Nat
  studentId : Nat
  weekStart : Int
  weekEnd : Int
  disabledDays : String
  logs : List String
  importantEvents : String
deriving DecidableEq, Repr

/-- One `WeeklyReportDetail` row (models.py 116-122). -/
structure DetailRow where
  id : Nat
  reportId : Nat
  boxId : Nat
  startTime : PyDateTime
  endTime : PyDateTime
  dayOfWeek : String
  isDisabled : Bool
deriving DecidableEq, Repr

/-- The persistent store: catalog tables, the mutable tables, and the
auto-increment counters for the three tables the planning views insert into. -/
structure Store where
  boxTypes : List BoxTypeRow
  lessons : List LessonRow
  chapters : List ChapterRow
  boxes : List BoxRow
  reports : List ReportRow
  details : List DetailRow
  nextBoxId : Nat
  nextReportId : Nat
  nextDetailId : Nat
deriving DecidableEq, Repr

/-- Auto-increment discipline: every stored row's id is below the table's
next id.  Any store produced by Django satisfies this. -/
def StoreOk (st : Store) : Prop :=
  (∀ b ∈ st.boxes, b.id < st.nextBoxId) ∧
  (∀ r ∈ st.reports, r.id < st.nextReportId) ∧
  (∀ d ∈ st.details, d.id < st.nextDetailId)

instance (st : Store) : Decidable (StoreOk st) := by
  unfold StoreOk
  infer_instance

/-- One task of the `days[]` payload of `save_weekly_report` (views.py
1328-1347).  `optional_tests_count` defaults to 0 at extraction
(`task.get('optional_tests_count', 0)`); the nullable fields are `Option`s. -/
structure TaskInput where
  startStr : String
  endStr : String
  boxTypeName : String
  lessonId : Option Nat
  chapterId : Option Nat
  optionalTestsCount : Int
  durationMinutes : Option Int
  title : Option String
deriving DecidableEq, Repr

/-- One day entry of the `days[]` payload (views.py 1321-1324). -/
structure DayInput where
  day : String
  disabled : Bool
  tasks : List TaskInput
deriving DecidableEq, Repr

/-- The decoded request body of `save_weekly_report` (views.py 1258-1266),
with the week bounds already parsed to day numbers. -/
structure SaveInput where
  studentId : Nat
  weekStart : Int
  weekEnd : Int
  days : List DayInput
  importantEvents : String
deriving DecidableEq, Repr

/-- Split a character list at every occurrence of the separator (the shape of
Python's `str.split`). -/
def splitChars (sep : Char) : List Char → List (List Char)
  | [] => [[]]
  | c :: cs =>
    match splitChars sep cs with
    | [] => [[c]]
    | g :: gs => if c == sep then [] :: g :: gs else (c :: g) :: gs

/-- The numeric value of an ASCII digit. -/
def digitVal (c : Char) : Option Nat :=
  if 48 ≤ c.toNat ∧ c.toNat ≤ 57 then some (c.toNat - 48) else none

/-- One `%H`/`%M`/`%S` component: one or two digits, below the bound. -/
def parseTimeComp (cs : List Char) (bound : Nat) : Option Nat :=
  match cs with
  | [c] =>
    match digitVal c with
    | some n => if n < bound then some n else none
    | none => none
  | [c1, c2] =>
    match digitVal c1, digitVal c2 with
    | some a, some b => if 10 * a + b < bound then some (10 * a + b) else none
    | _, _ => none
  | _ => none

/-- `datetime.strptime(s, '%H:%M:%S')` restricted to the time of day, returned
as seconds since midnight; `none` models the `ValueError` raised on malformed
input.  Hours below 24, minutes and seconds below 60 (Python additionally
tolerates leap seconds 60/61, which no claim touches). -/
def parseTimeHMS (s : String) : Option Nat :=
  match splitChars ':' s.toList with
  | [h, m, s2] =>
    match parseTimeComp h 24, parseTimeComp m 60, parseTimeComp s2 60 with
    | some hh, some mm, some ss => some (hh * 3600 + mm * 60 + ss)
    | _, _, _ => none
  | _ => none

/-- Decidable equality for `Except`, used to evaluate the models on concrete
inputs. -/
instance {ε α : Type} [DecidableEq ε] [DecidableEq α] : DecidableEq (Except ε α) := fun a b =>
  match a, b with
  | .ok x, .ok y => decidable_of_iff (x = y) (by simp)
  | .error x, .error y => decidable_of_iff (x = y) (by simp)
  | .ok _, .error _ => isFalse (fun h => Except.noConfusion h)
  | .error _, .ok _ => isFalse (fun h => Except.noConfusion h)

/-! ### Django ORM primitives used by the planning views -/

/-- `WeeklyReport.objects.filter(student=sid, week_start=ws).first()`-style
lookup used by `get_or_create` (insertion order, as with an unordered
queryset). -/
def findReport (st : Store) (sid : Nat) (ws : Int) : Option ReportRow :=
  st.reports.find? (fun r => r.studentId == sid && r.weekStart == ws)

/-- Replace the stored report row with the given id. -/
def updateReport (st : Store) (rid : Nat) (f : ReportRow → ReportRow) : Store :=
  { st with reports := st.reports.map (fun r => if r.id == rid then f r else r) }

/-- Copy onto `old` exactly the fields of the in-memory row `mem` that are
listed in `update_fields`. -/
def applyUpdateFields (old mem : ReportRow) (fs : List String) : ReportRow :=
  { old with
    weekEnd := if fs.contains "week_end" then mem.weekEnd else old.weekEnd
    disabledDays := if fs.contains "disabled_days" then mem.disabledDays else old.disabledDays
    logs := if fs.contains "logs" then mem.logs else old.logs
    importantEvents :=
      if fs.contains "important_events" then mem.importantEvents else old.importantEvents }

/-- `report.save(update_fields=fs)`: persist only the listed fields of the
in-memory row `mem`. -/
def djangoSave (st : Store) (mem : ReportRow) (fs : List String) : Store :=
  updateReport st mem.id (fun r => applyUpdateFields r mem fs)

/-- `append_report_log` (views.py 503-517): append one entry to the in-memory
row's log array and persist the `logs` field immediately.  Returns the mutated
in-memory row together with the store. -/
def appendReportLog (st : Store) (mem : ReportRow) (action : String) :
    ReportRow × Store :=
  let mem' := { mem with logs := mem.logs ++ [action] }
  (mem', djangoSave st mem' ["logs"])

/-- `WeeklyReport.objects.get_or_create(student=..., week_start=...,
defaults={...})`: returns the row, the `created` flag and the store. -/
def getOrCreateReport (st : Store) (sid : Nat) (ws we : Int)
    (dDays impEv : String) (logs0 : List String) : ReportRow × Bool × Store :=
  match findReport st sid ws with
  | some r => (r, false, st)
  | none =>
    let row : ReportRow :=
      { id := st.nextReportId, studentId := sid, weekStart := ws, weekEnd := we
        disabledDays := dDays, logs := logs0, importantEvents := impEv }
    (row, true,
      { st with reports := st.reports ++ [row], nextReportId := st.nextReportId + 1 })

/-- `BoxType.objects.get(name=...)` (views.py 1349): `DoesNotExist` and
`MultipleObjectsReturned` both abort the request. -/
def djangoGetBoxType (st : Store) (n : String) : Except String BoxTypeRow :=
  match st.boxTypes.filter (fun bt => bt.name == n) with
  | [bt] => .ok bt
  | [] => .error "BoxType matching query does not exist."
  | _ => .error "get() returned more than one BoxType"

/-- `Lesson.objects.get(pk=lesson_id) if lesson_id else None` (views.py 1367):
a missing id yields `None`; a dangling id raises. -/
def lessonLookup (st : Store) : Option Nat → Except String (Option Nat)
  | none => .ok none
  | some lid =>
    match st.lessons.find? (fun l => l.id == lid) with
    | some l => .ok (some l.id)
    | none => .error "Lesson matching query does not exist."

/-- The chapter lookup of `save_weekly_report` (views.py 1368-1374): a missing
or dangling chapter id is silently treated as `None`. -/
def chapterLookup (st : Store) : Option Nat → Option Nat
  | none => none
  | some cid => if st.chapters.any (fun c => c.id == cid) then some cid else none

/-! ### `save_weekly_report` (views.py 1253-1402) -/

/-- The per-day context threaded through task creation: the report, the day's
absolute calendar date (`week_start + offset`), the Persian day name from the
payload and the day's disabled flag. -/
structure TaskCtx where
  reportId : Nat
  boxDate : Int
  dayName : String
  dayDisabled : Bool
deriving DecidableEq, Repr

/-- Build the `Box` row for one task (views.py 1341-1383).  The `"ایونت"`
(event) branch forces null lesson/chapter, zero counts, zero duration and
`is_default=True`; the other branch resolves lesson (hard) and chapter (soft)
and leaves `is_default` at its model default `False`. -/
def boxPayload (st : Store) (t : TaskInput) : Except String BoxRow :=
  match djangoGetBoxType st t.boxTypeName with
  | .error e => .error e
  | .ok _ =>
    if t.boxTypeName = "ایونت" then
      .ok { id := st.nextBoxId, boxType := t.boxTypeName, lesson := none,
            chapter := none, optionalTestsCount := 0, durationMinutes := some 0,
            name := t.title, isDefault := true }
    else
      match lessonLookup st t.lessonId with
      | .error e => .error e
      | .ok lessonOpt =>
        .ok { id := st.nextBoxId, boxType := t.boxTypeName, lesson := lessonOpt,
              chapter := chapterLookup st t.chapterId,
              optionalTestsCount := t.optionalTestsCount,
              durationMinutes := t.durationMinutes,
              name := t.title, isDefault := false }

/-- Process one task (views.py 1328-1393): parse the two time strings, build
the `Box` row, create it, then create the `WeeklyReportDetail` row.  Every
abort happens before any row is created, so the store is returned unchanged on
error. -/
def processTask (st : Store) (ctx : TaskCtx) (t : TaskInput) :
    Option String × Store :=
  match parseTimeHMS t.startStr, parseTimeHMS t.endStr with
  | some startSec, some endSec =>
    match boxPayload st t with
    | .error e => (some e, st)
    | .ok box =>
      let st1 := { st with boxes := st.boxes ++ [box], nextBoxId := st.nextBoxId + 1 }
      let det : DetailRow :=
        { id := st1.nextDetailId, reportId := ctx.reportId, boxId := box.id
          startTime := ⟨ctx.boxDate, startSec⟩, endTime := ⟨ctx.boxDate, endSec⟩
          dayOfWeek := ctx.dayName, isDisabled := ctx.dayDisabled }
      (none, { st1 with details := st1.details ++ [det], nextDetailId := st1.nextDetailId + 1 })
  | _, _ => (some "time data does not match format", st)

/-- Process the tasks of one day in order, stopping (with the store reached so
far) at the first aborting task. -/
def processTasks (st : Store) (ctx : TaskCtx) : List TaskInput → Option String × Store
  | [] => (none, st)
  | t :: ts =>
    match processTask st ctx t with
    | (some e, st') => (some e, st')
    | (none, st') => processTasks st' ctx ts

/-- The context for one day's tasks (views.py 1321-1326):
`offset = weekday_offset.get(day_name, 0)` and
`box_date = (week_start + timedelta(days=offset)).date()`. -/
def taskCtxFor (reportId : Nat) (weekStart : Int) (d : DayInput) : TaskCtx :=
  { reportId := reportId, boxDate := weekStart + offsetOf d.day
    dayName := d.day, dayDisabled := d.disabled }

/-- Process the day list in order (views.py 1321), stopping at the first abort. -/
def processDays (st : Store) (reportId : Nat) (weekStart : Int) :
    List DayInput → Option String × Store
  | [] => (none, st)
  | d :: ds =>
    match processTasks st (taskCtxFor reportId weekStart d) d.tasks with
    | (some e, st') => (some e, st')
    | (none, st') => processDays st' reportId weekStart ds

/-- The report upsert phase of `save_weekly_report` (views.py 1272-1307):
compute `disabled_days`, `get_or_create` the report (create path seeds the log
with the "Report created" entry), and on the update path assign
week_end/disabled_days/important_events on the in-memory row, append the
"Report updated" log entry (persisted immediately), delete all detail rows of
the report, then `save(update_fields=["week_end", "disabled_days", "logs"])`
(note: `important_events` is not in the list). -/
def saveReportPhase (st : Store) (inp : SaveInput) : ReportRow × Store :=
  let dDays := String.intercalate "," ((inp.days.filter (·.disabled)).map (·.day))
  let goc :=
    getOrCreateReport st inp.studentId inp.weekStart inp.weekEnd dDays
      inp.importantEvents ["Report created"]
  if goc.2.1 then (goc.1, goc.2.2)
  else
    let mem := { goc.1 with weekEnd := inp.weekEnd, disabledDays := dDays
                            importantEvents := inp.importantEvents }
    let app := appendReportLog goc.2.2 mem "Report updated"
    let st3 := { app.2 with details := app.2.details.filter (fun d => d.reportId ≠ app.1.id) }
    (app.1, djangoSave st3 app.1 ["week_end", "disabled_days", "logs"])

/-- `save_weekly_report` (views.py 1253-1402): upsert the report, create the
day/task rows, then append the final "Report details saved" log entry followed
by `report.save(update_fields=["logs"])`.  Any exception surfaces as an error
result, keeping the store reached at the abort point (no transaction wraps the
operation). -/
def saveWeeklyReport (inp : SaveInput) (st : Store) : Except String Unit × Store :=
  let phase := saveReportPhase st inp
  match processDays phase.2 phase.1.id inp.weekStart inp.days with
  | (some e, st2) => (.error e, st2)
  | (none, st2) =>
    let app := appendReportLog st2 phase.1 "Report details saved"
    (.ok (), djangoSave app.2 app.1 ["logs"])

/-! ### `check_weekly_report` (views.py 918-964) -/

/-- The three outcomes of the date lookup: a report covering the date
(`"exists": "current"`), the nearest future report (`"exists": "future"`), or
nothing (`"exists": False` in the JSON). -/
inductive CheckOutcome where
  | current (weekStart weekEnd : Int)
  | future (weekStart weekEnd : Int)
  | nothing
deriving DecidableEq, Repr

def CheckOutcome.isCurrent : CheckOutcome → Bool
  | .current _ _ => true
  | _ => false

def CheckOutcome.isFuture : CheckOutcome → Bool
  | .future _ _ => true
  | _ => false

def CheckOutcome.isNothing : CheckOutcome → Bool
  | .nothing => true
  | _ => false

/-- `.order_by('week_start').first()`: the row with the smallest `week_start`,
the earliest stored among ties (the sort is stable). -/
def minByWeekStart : List ReportRow → Option ReportRow
  | [] => none
  | r :: rs =>
    match minByWeekStart rs with
    | none => some r
    | some b => some (if r.weekStart ≤ b.weekStart then r else b)

/-- `check_weekly_report` after marshalling (views.py 936-964): first look for
a report of the student whose `[week_start, week_end]` interval contains the
selected date; otherwise look for the nearest future report ordered by
`week_start`; otherwise report nothing. -/
def checkWeeklyReport (reports : List ReportRow) (sid : Nat) (d : Int) : CheckOutcome :=
  match reports.find? (fun r =>
      r.studentId == sid && decide (r.weekStart ≤ d) && decide (d ≤ r.weekEnd)) with
  | some r => .current r.weekStart r.weekEnd
  | none =>
    match minByWeekStart (reports.filter (fun r =>
        r.studentId == sid && decide (d < r.weekStart))) with
    | some r => .future r.weekStart r.weekEnd
    | none => .nothing

/-! ### `copy_day_plan` (views.py 1404-1509) -/

/-- The decoded POST parameters of `copy_day_plan` (the advisor authorisation
checks of views.py 1434-1443 precede the modelled logic). -/
structure CopyInput where
  sourceStudentId : Nat
  targetStudentId : Nat
  sourceDate : Int
  targetDayOfWeek : String
deriving DecidableEq, Repr

/-- The source-report query (views.py 1446-1450): the source student's report
whose week covers `source_date`. -/
def findSourceReport (st : Store) (inp : CopyInput) : Option ReportRow :=
  st.reports.find? (fun r =>
    r.studentId == inp.sourceStudentId && decide (r.weekStart ≤ inp.sourceDate)
      && decide (inp.sourceDate ≤ r.weekEnd))

/-- The source-day detail query (views.py 1465-1468): all details of the
source report whose `day_of_week` is the Persian name of `source_date`'s
weekday. -/
def sourceDetailsOf (st : Store) (inp : CopyInput) (sr : ReportRow) : List DetailRow :=
  st.details.filter (fun d =>
    d.reportId == sr.id && d.dayOfWeek == persianWeekdayMapping (pyWeekday inp.sourceDate))

/-- The copy loop (views.py 1486-1506): for each source detail, duplicate its
`Box` (a fresh row; note the `create` call passes every field except
`is_default`, which therefore falls back to `False`) and insert a new detail
under the target day, keeping the source start/end timestamps.  Returns the
number of rows copied. -/
def copyDetails (st : Store) (targetId : Nat) (targetDay : String) :
    List DetailRow → Except String Nat × Store
  | [] => (.ok 0, st)
  | d :: ds =>
    match st.boxes.find? (fun b => b.id == d.boxId) with
    | none => (.error "Box matching query does not exist.", st)
    | some origBox =>
      let newBox : BoxRow :=
        { id := st.nextBoxId, boxType := origBox.boxType, lesson := origBox.lesson
          chapter := origBox.chapter, optionalTestsCount := origBox.optionalTestsCount
          durationMinutes := origBox.durationMinutes, name := origBox.name
          isDefault := false }
      let stA := { st with boxes := st.boxes ++ [newBox], nextBoxId := st.nextBoxId + 1 }
      let newDetail : DetailRow :=
        { id := stA.nextDetailId, reportId := targetId, boxId := newBox.id
          startTime := d.startTime, endTime := d.endTime
          dayOfWeek := targetDay, isDisabled := d.isDisabled }
      let stB := { stA with details := stA.details ++ [newDetail]
                            nextDetailId := stA.nextDetailId + 1 }
      match copyDetails stB targetId targetDay ds with
      | (.ok n, st') => (.ok (n + 1), st')
      | (.error e, st') => (.error e, st')

/-- `copy_day_plan` (views.py 1445-1509): locate the source report and source
day details (either missing is a not-found failure), get-or-create the target
report for the same week, delete the target day's existing details, copy, then
append the "Copied day plan" log entry. -/
def copyDayPlan (inp : CopyInput) (st : Store) : Except String Nat × Store :=
  match findSourceReport st inp with
  | none => (.error "No report found for the source student for the specified date.", st)
  | some sourceReport =>
    let srcDetails := sourceDetailsOf st inp sourceReport
    if srcDetails.isEmpty then
      (.error "No plan details found for the source date's day in the source report.", st)
    else
      let goc :=
        getOrCreateReport st inp.targetStudentId sourceReport.weekStart
          sourceReport.weekEnd "" "" []
      let st2 := { goc.2.2 with details := goc.2.2.details.filter (fun d =>
          !(d.reportId == goc.1.id && d.dayOfWeek == inp.targetDayOfWeek)) }
      match copyDetails st2 goc.1.id inp.targetDayOfWeek srcDetails with
      | (.ok n, st') => (.ok n, (appendReportLog st' goc.1 "Copied day plan").2)
      | (.error e, st') => (.error e, st')

/-! ### Lesson recommendation (views.py 1125-1183 and 1559-1641)

Both functions run after the whole module is loaded, so the *second*
module-level definitions of `MAJOR_SUBJECTS` (views.py 1540) and `GRADE_ORDER`
(views.py 1547) are the ones in effect; the earlier definitions at views.py
1055 and 1065 are overwritten at import time. -/

/-- `MAJOR_SUBJECTS.get(major, [])`, effective (second) definition. -/
def MAJOR_SUBJECTS (major : String) : List String :=
  match major with
  | "تجربی" => ["زیست", "ریاضی", "شیمی", "فیزیک", "زمین"]
  | "ریاضی" => ["حسابان", "شیمی", "گسسته", "فیزیک", "هندسه"]
  | "انسانی" => ["جامعه شناسی", "فلسفه", "ریاضی", "آمار", "روانشناسی", "اقتصاد",
                 "علوم و فنون", "منطق", "تاریخ", "جغرافیا"]
  | _ => []

/-- `GENERAL_SUBJECTS` (views.py 1062). -/
def GENERAL_SUBJECTS : List String := ["ادبیات", "عربی", "دینی", "زبان"]

/-- `GRADE_ORDER.get(grade_name, 999)`, effective (second) definition. -/
def GRADE_ORDER (g : String) : Nat :=
  match g with
  | "دوازدهم" => 0
  | "یازدهم" => 1
  | "دهم" => 2
  | _ => 999

/-- `MAJOR_TO_CODE.get(major)` (views.py 1553-1557). -/
def MAJOR_TO_CODE (m : String) : Option String :=
  match m with
  | "تجربی" => some "T"
  | "ریاضی" => some "R"
  | "انسانی" => some "E"
  | _ => none

/-- Is the needle a prefix of the haystack? -/
def listHasPfx [BEq α] : List α → List α → Bool
  | [], _ => true
  | _ :: _, [] => false
  | a :: as, b :: bs => a == b && listHasPfx as bs

/-- Does the needle occur inside the haystack? -/
def listHasSub [BEq α] (needle : List α) : List α → Bool
  | [] => listHasPfx needle []
  | b :: bs => listHasPfx needle (b :: bs) || listHasSub needle bs

/-- Python `sub in hay` for strings: substring containment. -/
def strContains (hay sub : String) : Bool :=
  listHasSub sub.toList hay.toList

/-- ASCII lower-casing on code points (the track codes are ASCII letters). -/
def lowerNat (c : Char) : Nat :=
  if 65 ≤ c.toNat ∧ c.toNat ≤ 90 then c.toNat + 32 else c.toNat

/-- Django `track__icontains=code` on the nullable `track` column: SQL `NULL`
never matches; otherwise case-insensitive substring containment. -/
def trackIContains (track : Option String) (code : String) : Bool :=
  match track with
  | none => false
  | some t => listHasSub (code.toList.map lowerNat) (t.toList.map lowerNat)

/-- `try: lst.index(x) except ValueError: 999` (views.py 1160-1163). -/
def pyIndex (l : List String) (x : String) : Nat :=
  match l.findIdx? (· == x) with
  | some i => i
  | none => 999

/-- The sort key of `major_sort_key` / `general_sort_key` (views.py 1158-1175):
(index in the fixed subject list, grade rank). -/
def lessonSortKey (subjects : List String) (l : LessonRow) : Nat × Nat :=
  (pyIndex subjects l.name, GRADE_ORDER l.gradeName)

/-- Strict lexicographic order on sort keys (Python tuple `<`). -/
def keyLt (a b : Nat × Nat) : Bool :=
  a.1 < b.1 || (a.1 == b.1 && a.2 < b.2)

/-- Stable insertion into a key-sorted list: the new element goes before the
first element whose key is not strictly smaller. -/
def insertSorted (key : LessonRow → Nat × Nat) (x : LessonRow) :
    List LessonRow → List LessonRow
  | [] => [x]
  | y :: ys => if keyLt (key y) (key x) then y :: insertSorted key x ys
               else x :: y :: ys

/-- Stable sort by key, modelling Python's stable `list.sort(key=...)`. -/
def sortByKey (key : LessonRow → Nat × Nat) : List LessonRow → List LessonRow
  | [] => []
  | x :: xs => insertSorted key x (sortByKey key xs)

/-- The per-lesson update of the loop-carried `lmaj` variable of
`sort_lessons_for_student` (views.py 1142-1148): set from the first chapter's
track if it contains `T`/`R`/`E`, otherwise keep the value left over from a
previous iteration (`none` = still unassigned). -/
def trackToMajor (track : String) (lmaj : Option String) : Option String :=
  if strContains track "T" then some "تجربی"
  else if strContains track "R" then some "ریاضی"
  else if strContains track "E" then some "انسانی"
  else lmaj

/-- The bucketing loop of `sort_lessons_for_student` (views.py 1141-1155).
`none` models the uncaught exceptions of the loop: a lesson with no chapter
(`.first().track` on `None`), a `NULL` track (`"T" in None`), or comparing the
never-assigned `lmaj` (`NameError`). -/
def bucketLessons (userMajor : String) (majorList : List String)
    (chapters : List ChapterRow) :
    List LessonRow → Option String → Option (List LessonRow × List LessonRow)
  | [], _ => some ([], [])
  | l :: ls, lmaj =>
    match chapters.find? (fun c => c.lessonId == l.id) with
    | none => none
    | some ch =>
      match ch.track with
      | none => none
      | some track =>
        let lmaj' := trackToMajor track lmaj
        if majorList.contains l.name then
          match bucketLessons userMajor majorList chapters ls lmaj' with
          | none => none
          | some (s, g) => some (l :: s, g)
        else
          match lmaj' with
          | none => none
          | some m =>
            if userMajor == m then
              match bucketLessons userMajor majorList chapters ls lmaj' with
              | none => none
              | some (s, g) => some (s, l :: g)
            else
              bucketLessons userMajor majorList chapters ls lmaj'

/-- `sort_lessons_for_student` (views.py 1125-1183): bucket all lessons into
specialized/general, then stable-sort each bucket by its key. -/
def sortLessonsForStudent (userMajor : String) (lessons : List LessonRow)
    (chapters : List ChapterRow) : Option (List LessonRow × List LessonRow) :=
  let majorList := MAJOR_SUBJECTS userMajor
  match bucketLessons userMajor majorList chapters lessons none with
  | none => none
  | some (s, g) =>
    some (sortByKey (lessonSortKey majorList) s, sortByKey (lessonSortKey GENERAL_SUBJECTS) g)

/-- The bucketing loop of `get_lessons_for_student` (views.py 1589-1620): keep
only lessons with at least one chapter whose track icontains the student's
major code (the commented-out grade filter and the unused `track_codes`
computation are dead code); a kept lesson is specialized iff its name is in
the major's subject list.  `lesson.grade` is a non-nullable foreign key, so
the `if not lesson.grade: continue` guard never fires. -/
def strictBucket (code : String) (majorList : List String)
    (chapters : List ChapterRow) : List LessonRow → List LessonRow × List LessonRow
  | [] => ([], [])
  | l :: ls =>
    let rest := strictBucket code majorList chapters ls
    if (chapters.filter (fun c => c.lessonId == l.id && trackIContains c.track code)).isEmpty
    then rest
    else if majorList.contains l.name then (l :: rest.1, rest.2)
    else (rest.1, l :: rest.2)

/-- `get_lessons_for_student` (views.py 1559-1641) after marshalling: resolve
the major code (unknown major is a bad-request failure), then bucket.  No sort
is applied in this endpoint. -/
def getLessonsForStudent (studentMajor : String) (lessons : List LessonRow)
    (chapters : List ChapterRow) : Except String (List LessonRow × List LessonRow) :=
  match MAJOR_TO_CODE studentMajor with
  | none => .error "Unknown student major."
  | some code => .ok (strictBucket code (MAJOR_SUBJECTS studentMajor) chapters lessons)

/-! ### `get_last_weekly_report` day-name projection (views.py 893-915) -/

/-- The day name `get_last_weekly_report` attaches to a task:
`WEEKDAYS[detail.start_time.weekday()]` (views.py 903 and 914).  `WEEKDAYS` is
Saturday-first while `weekday()` is Monday-based. -/
def lastReportDayName (startDay : Int) : String :=
  WEEKDAYS.getD (pyWeekday startDay) ""

/-- The day name `copy_day_plan` derives for the same calendar date:
`persian_weekday_mapping[source_date.weekday()]` (views.py 1465). -/
def copyDayDayName (date : Int) : String :=
  persianWeekdayMapping (pyWeekday date)

/-! ### Invariant predicates from the spec -/

/-- The day/date consistency invariant of spec §3: the detail's day name is
one of the seven fixed Persian weekday names, and both timestamps fall on the
calendar date `week_start + offset(day_of_week)`. -/
def DetailInv (weekStart : Int) (d : DetailRow) : Prop :=
  d.dayOfWeek ∈ WEEKDAYS ∧
  d.startTime.day = weekStart + offsetOf d.dayOfWeek ∧
  d.endTime.day = weekStart + offsetOf d.dayOfWeek

instance (ws : Int) (d : DetailRow) : Decidable (DetailInv ws d) := by
  unfold DetailInv
  infer_instance

/-! ### Concrete fixtures used by the counterexamples and witnesses -/

/-- A plain lesson-style box type called "درس". -/
def lessonBoxType : BoxTypeRow := ⟨0, "درس", false⟩

/-- Fixture for the update path of `save_weekly_report`: a store already
holding a report (week 0-6, important events "old") with one detail row. -/
def c1St : Store :=
  { boxTypes := [lessonBoxType], lessons := [], chapters := []
    boxes := [⟨0, "درس", none, none, 0, some 60, some "t", false⟩]
    reports := [⟨0, 1, 0, 6, "", ["Report created", "Report details saved"], "old"⟩]
    details := [⟨0, 0, 0, ⟨0, 3600⟩, ⟨0, 7200⟩, "شنبه", false⟩]
    nextBoxId := 1, nextReportId := 1, nextDetailId := 1 }

/-- A re-save of the same (student, week_start) with new week end, a newly
disabled Saturday, no tasks, and new important events "new". -/
def c1Inp : SaveInput := ⟨1, 0, 8, [⟨"شنبه", true, []⟩], "new"⟩

/-- Fixture for `copy_day_plan`: source student 1 has a report for the week
5-11 with one default event box placed on Saturday; date 5 is a Saturday
(`pyWeekday 5 = 5`), so the stored detail satisfies the day/date invariant. -/
def cpSt : Store :=
  { boxTypes := [⟨0, "ایونت", true⟩], lessons := [], chapters := []
    boxes := [⟨0, "ایونت", none, none, 0, some 0, some "ev", true⟩]
    reports := [⟨0, 1, 5, 11, "", [], ""⟩]
    details := [⟨0, 0, 0, ⟨5, 3600⟩, ⟨5, 7200⟩, "شنبه", false⟩]
    nextBoxId := 1, nextReportId := 1, nextDetailId := 1 }

/-- Copy student 1's Saturday (date 5) onto student 2's Sunday. -/
def cpInp : CopyInput := ⟨1, 2, 5, "یکشنبه"⟩

/-- An ordinary well-formed task, 08:00-09:00. -/
def okTask : TaskInput := ⟨"08:00:00", "09:00:00", "درس", none, none, 0, some 60, some "x"⟩

/-- A task whose start-time string is malformed. -/
def badTask : TaskInput := ⟨"bad", "09:00:00", "درس", none, none, 0, some 60, some "x"⟩

/-- An empty store holding only the "درس" box type. -/
def emptySt : Store :=
  { boxTypes := [lessonBoxType], lessons := [], chapters := []
    boxes := [], reports := [], details := []
    nextBoxId := 0, nextReportId := 0, nextDetailId := 0 }

/-- A save whose week is only four days long (week_end = week_start + 3) but
which places a task on Friday (offset 6). -/
def c7Inp : SaveInput := ⟨1, 0, 3, [⟨"جمعه", false, [okTask]⟩], ""⟩

/-- A one-task Saturday save for a full week 0-6. -/
def c6Inp : SaveInput := ⟨1, 0, 6, [⟨"شنبه", false, [okTask]⟩], "ev"⟩

/-- A save whose single day holds one good task followed by one malformed
task. -/
def c8Inp : SaveInput := ⟨1, 0, 6, [⟨"شنبه", false, [okTask, badTask]⟩], ""⟩


/-! ## Basic lemmas -/

theorem pyWeekday_lt (d : Int) : pyWeekday d < 7 := by
  unfold pyWeekday
  have h1 : 0 ≤ d % 7 := Int.emod_nonneg d (by norm_num)
  have h2 : d % 7 < 7 := Int.emod_lt_of_pos d (by norm_num)
  omega

/-- The Saturday-first `WEEKDAYS` table and `copy_day_plan`'s Monday-based
`persian_weekday_mapping` disagree at every weekday index. -/
theorem weekday_tables_disagree :
    ∀ w : Fin 7, WEEKDAYS.getD w.val "" ≠ persianWeekdayMapping w.val := by decide

/-! ## C1 -/

/-- C1 (code bug): re-saving an existing report persists the new `week_end`
and disabled-days, appends the "Report updated" log entry and wipes the old
detail rows — but the new `important_events` value is only assigned in memory:
`report.save(update_fields=["week_end", "disabled_days", "logs"])` omits
`important_events`, so the stored report still carries the old value "old"
although the request supplied "new". -/
theorem C1_important_events_not_persisted_on_update :
    (saveWeeklyReport c1Inp c1St).1 = .ok () ∧
    (saveWeeklyReport c1Inp c1St).2.reports =
      [⟨0, 1, 0, 8, "شنبه",
        ["Report created", "Report details saved", "Report updated", "Report details saved"],
        "old"⟩] ∧
    (saveWeeklyReport c1Inp c1St).2.details = [] ∧
    c1Inp.importantEvents = "new" := by decide

/-! ## C5 -/

/-- C5 (code bug): `copy_day_plan` violates the event-box invariant.  Copying
a Saturday that holds a default event box (`box_type` "ایونت",
`is_default=True`) succeeds, but the freshly created duplicate box has
`is_default = False`, because the `Box.objects.create` call in the copy loop
passes every field except `is_default`. -/
theorem C5_copy_drops_is_default_on_event_box :
    (copyDayPlan cpInp cpSt).1 = .ok 1 ∧
    (∀ b ∈ cpSt.boxes, b.boxType = "ایونت" → b.isDefault = true) ∧
    (∃ b ∈ (copyDayPlan cpInp cpSt).2.boxes,
      b.boxType = "ایونت" ∧ b.isDefault = false ∧ b.id ∉ cpSt.boxes.map (·.id)) := by
  decide

/-! ## C2 (counterexample part) -/

/-- C2 is false as stated: starting from a store in which every detail row
satisfies the day/date invariant, a successful `copy_day_plan` onto target day
Sunday produces a detail row that violates it — the copy loop stamps the
target day name but keeps the source detail's Saturday timestamps
(`start_time=detail.start_time`, views.py 1501), so the stored times do not
fall on `week_start + offset("یکشنبه")`. -/
theorem C2_counterexample_copy_breaks_date_invariant :
    (∀ d ∈ cpSt.details, ∀ r ∈ cpSt.reports, d.reportId = r.id → DetailInv r.weekStart d) ∧
    (copyDayPlan cpInp cpSt).1 = .ok 1 ∧
    (∃ d ∈ (copyDayPlan cpInp cpSt).2.details, ∃ r ∈ (copyDayPlan cpInp cpSt).2.reports,
      d.reportId = r.id ∧ ¬ DetailInv r.weekStart d) := by
  decide

/-! ## C7 (counterexample part) -/

/-- C7 is false as stated: `save_weekly_report` never checks the computed day
date against `week_end`.  For a four-day week (week_end = week_start + 3) with
a task on Friday, the save succeeds and stores a detail on
`week_start + 6`, outside the supplied `[week_start, week_end]` interval. -/
theorem C7_counterexample_date_outside_week :
    (saveWeeklyReport c7Inp emptySt).1 = .ok () ∧
    (∃ d ∈ (saveWeeklyReport c7Inp emptySt).2.details,
      d.dayOfWeek = "جمعه" ∧ d.startTime.day = c7Inp.weekStart + offsetOf "جمعه" ∧
      ¬(c7Inp.weekStart ≤ d.startTime.day ∧ d.startTime.day ≤ c7Inp.weekEnd)) := by
  decide

/-! ## C10 -/

/-- C10: `get_last_weekly_report` labels a task with
`WEEKDAYS[start_time.weekday()]`, indexing the Saturday-first Persian list
with Python's Monday-based weekday.  Consequently, for every stored start
time, the day name this endpoint returns differs from the day name
`copy_day_plan`'s weekday mapping assigns to the same calendar date, and a
detail whose start time falls on a Monday is labelled "شنبه" (Saturday). -/
theorem C10_weekday_label_shift (startDay : Int) :
    lastReportDayName startDay ≠ copyDayDayName startDay ∧
    (pyWeekday startDay = 0 → lastReportDayName startDay = "شنبه") := by
  have h7 := pyWeekday_lt startDay
  constructor
  · have h := weekday_tables_disagree ⟨pyWeekday startDay, h7⟩
    simpa [lastReportDayName, copyDayDayName] using h
  · intro h0
    simp [lastReportDayName, h0, WEEKDAYS]

/-- Witness for C10 at a concrete date: day 0 is a Monday, and the endpoint
labels it Saturday. -/
theorem C10_witness : lastReportDayName 0 = "شنبه" :=
  (C10_weekday_label_shift 0).2 (by decide)

/-! ## Store-evolution lemmas for `save_weekly_report` -/

theorem djangoSave_details (st : Store) (mem : ReportRow) (fs : List String) :
    (djangoSave st mem fs).details = st.details := rfl

theorem djangoSave_boxes (st : Store) (mem : ReportRow) (fs : List String) :
    (djangoSave st mem fs).boxes = st.boxes := rfl

theorem djangoSave_nextDetailId (st : Store) (mem : ReportRow) (fs : List String) :
    (djangoSave st mem fs).nextDetailId = st.nextDetailId := rfl

theorem appendReportLog_details (st : Store) (mem : ReportRow) (a : String) :
    ((appendReportLog st mem a).2).details = st.details := rfl

theorem getOrCreate_details (st : Store) (sid : Nat) (ws we : Int)
    (dd ie : String) (l0 : List String) :
    ((getOrCreateReport st sid ws we dd ie l0).2.2).details = st.details := by
  unfold getOrCreateReport
  cases findReport st sid ws <;> rfl

theorem getOrCreate_boxes (st : Store) (sid : Nat) (ws we : Int)
    (dd ie : String) (l0 : List String) :
    ((getOrCreateReport st sid ws we dd ie l0).2.2).boxes = st.boxes := by
  unfold getOrCreateReport
  cases findReport st sid ws <;> rfl

theorem getOrCreate_nextBoxId (st : Store) (sid : Nat) (ws we : Int)
    (dd ie : String) (l0 : List String) :
    ((getOrCreateReport st sid ws we dd ie l0).2.2).nextBoxId = st.nextBoxId := by
  unfold getOrCreateReport
  cases findReport st sid ws <;> rfl

theorem getOrCreate_nextDetailId (st : Store) (sid : Nat) (ws we : Int)
    (dd ie : String) (l0 : List String) :
    ((getOrCreateReport st sid ws we dd ie l0).2.2).nextDetailId = st.nextDetailId := by
  unfold getOrCreateReport
  cases findReport st sid ws <;> rfl

/-- A task either aborts, leaving the store untouched, or creates exactly one
box and one detail row carrying the day context. -/
theorem processTask_spec (st : Store) (ctx : TaskCtx) (t : TaskInput) :
    (∃ e, processTask st ctx t = (some e, st)) ∨
    (∃ box startSec endSec,
      boxPayload st t = .ok box ∧
      processTask st ctx t =
        (none,
          { st with
            boxes := st.boxes ++ [box]
            nextBoxId := st.nextBoxId + 1
            details := st.details ++
              [⟨st.nextDetailId, ctx.reportId, box.id, ⟨ctx.boxDate, startSec⟩,
                ⟨ctx.boxDate, endSec⟩, ctx.dayName, ctx.dayDisabled⟩]
            nextDetailId := st.nextDetailId + 1 })) := by
  unfold processTask
  cases hs : parseTimeHMS t.startStr with
  | none => cases he : parseTimeHMS t.endStr <;> exact .inl ⟨_, rfl⟩
  | some startSec =>
    cases he : parseTimeHMS t.endStr with
    | none => exact .inl ⟨_, rfl⟩
    | some endSec =>
      cases hb : boxPayload st t with
      | error e => exact .inl ⟨e, rfl⟩
      | ok box => exact .inr ⟨box, startSec, endSec, rfl, rfl⟩

/-- Processing a task list only appends detail rows (each stamped with the day
context and a fresh id) and leaves the report table untouched. -/
theorem processTasks_evolve (ctx : TaskCtx) :
    ∀ (ts : List TaskInput) (st : Store),
      (processTasks st ctx ts).2.reports = st.reports ∧
      (processTasks st ctx ts).2.nextReportId = st.nextReportId ∧
      st.nextDetailId ≤ (processTasks st ctx ts).2.nextDetailId ∧
      ∃ nds, (processTasks st ctx ts).2.details = st.details ++ nds ∧
        ∀ d ∈ nds, d.reportId = ctx.reportId ∧ d.dayOfWeek = ctx.dayName ∧
          d.startTime.day = ctx.boxDate ∧ d.endTime.day = ctx.boxDate ∧
          st.nextDetailId ≤ d.id ∧ d.id < (processTasks st ctx ts).2.nextDetailId
  | [], st =>
    ⟨rfl, rfl, le_refl _, [], (List.append_nil _).symm, fun d hd => nomatch hd⟩
  | t :: ts, st => by
    rcases processTask_spec st ctx t with ⟨e, he⟩ | ⟨box, s1, s2, -, he⟩
    · have hstep : processTasks st ctx (t :: ts) = (some e, st) := by
        simp [processTasks, he]
      rw [hstep]
      exact ⟨rfl, rfl, le_refl _, [], (List.append_nil _).symm, fun d hd => nomatch hd⟩
    · obtain ⟨hrep, hnrep, hle, nds, hdet, hprops⟩ := processTasks_evolve ctx ts
        { st with
          boxes := st.boxes ++ [box]
          nextBoxId := st.nextBoxId + 1
          details := st.details ++
            [⟨st.nextDetailId, ctx.reportId, box.id, ⟨ctx.boxDate, s1⟩,
              ⟨ctx.boxDate, s2⟩, ctx.dayName, ctx.dayDisabled⟩]
          nextDetailId := st.nextDetailId + 1 }
      simp only [processTasks, he]
      refine ⟨hrep, hnrep, le_trans (Nat.le_succ _) hle,
        ⟨st.nextDetailId, ctx.reportId, box.id, ⟨ctx.boxDate, s1⟩,
          ⟨ctx.boxDate, s2⟩, ctx.dayName, ctx.dayDisabled⟩ :: nds, ?_, ?_⟩
      · rw [hdet]
        simp
      · intro d hd
        rcases List.mem_cons.mp hd with rfl | hd
        · exact ⟨rfl, rfl, rfl, rfl, le_refl _,
            lt_of_lt_of_le (Nat.lt_succ_self _) hle⟩
        · obtain ⟨h1, h2, h3, h4, h5, h6⟩ := hprops d hd
          exact ⟨h1, h2, h3, h4, le_trans (Nat.le_succ _) h5, h6⟩

/-- Processing the day list only appends detail rows; each new row carries the
report id, some day's name from the payload, and timestamps on that day's
computed date `week_start + offset`. -/
theorem processDays_evolve (rid : Nat) (ws : Int) :
    ∀ (days : List DayInput) (st : Store),
      (processDays st rid ws days).2.reports = st.reports ∧
      (processDays st rid ws days).2.nextReportId = st.nextReportId ∧
      st.nextDetailId ≤ (processDays st rid ws days).2.nextDetailId ∧
      ∃ nds, (processDays st rid ws days).2.details = st.details ++ nds ∧
        ∀ d ∈ nds, d.reportId = rid ∧ st.nextDetailId ≤ d.id ∧
          d.id < (processDays st rid ws days).2.nextDetailId ∧
          ∃ day ∈ days, d.dayOfWeek = day.day ∧
            d.startTime.day = ws + offsetOf day.day ∧
            d.endTime.day = ws + offsetOf day.day
  | [], st =>
    ⟨rfl, rfl, le_refl _, [], (List.append_nil _).symm, fun d hd => nomatch hd⟩
  | dy :: ds, st => by
    obtain ⟨hrep, hnrep, hle, nds, hdet, hprops⟩ :=
      processTasks_evolve (taskCtxFor rid ws dy) dy.tasks st
    cases hpt : processTasks st (taskCtxFor rid ws dy) dy.tasks with
    | mk fst snd =>
      rw [hpt] at hrep hnrep hle hdet hprops
      cases fst with
      | some e =>
        simp only [processDays, hpt]
        refine ⟨hrep, hnrep, hle, nds, hdet, ?_⟩
        intro x hx
        obtain ⟨h1, h2, h3, h4, h5, h6⟩ := hprops x hx
        exact ⟨h1, h5, h6, dy, List.mem_cons_self dy ds, h2, h3, h4⟩
      | none =>
        obtain ⟨hrep2, hnrep2, hle2, nds2, hdet2, hprops2⟩ :=
          processDays_evolve rid ws ds snd
        simp only [processDays, hpt]
        refine ⟨hrep2.trans hrep, hnrep2.trans hnrep, le_trans hle hle2,
          nds ++ nds2, by rw [hdet2, hdet, List.append_assoc], ?_⟩
        intro x hx
        rcases List.mem_append.mp hx with hx | hx
        · obtain ⟨h1, h2, h3, h4, h5, h6⟩ := hprops x hx
          exact ⟨h1, h5, lt_of_lt_of_le h6 hle2, dy, List.mem_cons_self dy ds,
            h2, h3, h4⟩
        · obtain ⟨h1, h5, h6, day, hday, h2, h3, h4⟩ := hprops2 x hx
          exact ⟨h1, le_trans hle h5, h6, day, List.mem_cons_of_mem dy hday,
            h2, h3, h4⟩

/-- The upsert phase never adds detail rows (the update path deletes some). -/
theorem saveReportPhase_details_sub (st : Store) (inp : SaveInput) :
    ∀ d ∈ (saveReportPhase st inp).2.details, d ∈ st.details := by
  unfold saveReportPhase getOrCreateReport
  cases findReport st inp.studentId inp.weekStart with
  | none => intro d hd; exact hd
  | some r => intro d hd; exact List.mem_of_mem_filter hd

/-- The final log append of `save_weekly_report` does not touch details, so
the details after a save are exactly those after the day-processing phase. -/
theorem saveWeeklyReport_details (inp : SaveInput) (st : Store) :
    (saveWeeklyReport inp st).2.details =
      (processDays (saveReportPhase st inp).2 (saveReportPhase st inp).1.id
        inp.weekStart inp.days).2.details := by
  unfold saveWeeklyReport
  cases hpd : processDays (saveReportPhase st inp).2 (saveReportPhase st inp).1.id
      inp.weekStart inp.days with
  | mk fst snd => cases fst <;> simp [hpd, appendReportLog, djangoSave_details]

/-- Every one of the seven weekday names has an offset between 0 and 6. -/
theorem offsetOf_mem_bounds : ∀ n ∈ WEEKDAYS, 0 ≤ offsetOf n ∧ offsetOf n ≤ 6 := by
  decide

/-! ## C2 (amended part) -/

/-- C2 amended: the day/date invariant holds for every detail row written by
`save_weekly_report` when each day entry of the payload carries one of the
seven Persian weekday names (the code does not validate the names, and
`copy_day_plan` keeps source timestamps, so the unrestricted invariant fails —
see the counterexample). -/
theorem C2_amended_save_details_satisfy_invariant (inp : SaveInput) (st : Store)
    (hdays : ∀ day ∈ inp.days, day.day ∈ WEEKDAYS) :
    ∀ d ∈ (saveWeeklyReport inp st).2.details,
      d ∈ st.details ∨ DetailInv inp.weekStart d := by
  intro d hd
  rw [saveWeeklyReport_details] at hd
  obtain ⟨-, -, -, nds, hdet, hprops⟩ :=
    processDays_evolve (saveReportPhase st inp).1.id inp.weekStart inp.days
      (saveReportPhase st inp).2
  rw [hdet] at hd
  rcases List.mem_append.mp hd with h | h
  · exact .inl (saveReportPhase_details_sub st inp d h)
  · obtain ⟨-, -, -, day, hday, hdow, hsd, hed⟩ := hprops d h
    exact .inr ⟨hdow ▸ hdays day hday, by rw [hdow]; exact hsd, by rw [hdow]; exact hed⟩

/-- Witness for the amended C2 at a concrete save. -/
theorem C2_witness :
    (⟨0, 0, 0, ⟨0, 28800⟩, ⟨0, 32400⟩, "شنبه", false⟩ : DetailRow) ∈ emptySt.details ∨
      DetailInv c6Inp.weekStart ⟨0, 0, 0, ⟨0, 28800⟩, ⟨0, 32400⟩, "شنبه", false⟩ :=
  C2_amended_save_details_satisfy_invariant c6Inp emptySt (by decide)
    ⟨0, 0, 0, ⟨0, 28800⟩, ⟨0, 32400⟩, "شنبه", false⟩ (by decide)

/-! ## C7 (amended part) -/

/-- C7 amended: for day entries among the seven weekday names, the stored
date is always `week_start + offset(day)`, and it falls inside
`[week_start, week_end]` provided the supplied week spans a full seven days
(`week_start + 6 ≤ week_end`); the code itself never checks the computed date
against `week_end` (see the counterexample). -/
theorem C7_amended_dates_within_full_week (inp : SaveInput) (st : Store)
    (hdays : ∀ day ∈ inp.days, day.day ∈ WEEKDAYS)
    (hweek : inp.weekStart + 6 ≤ inp.weekEnd) :
    ∀ d ∈ (saveWeeklyReport inp st).2.details,
      d ∈ st.details ∨
        (d.startTime.day = inp.weekStart + offsetOf d.dayOfWeek ∧
         inp.weekStart ≤ d.startTime.day ∧ d.startTime.day ≤ inp.weekEnd) := by
  intro d hd
  rcases C2_amended_save_details_satisfy_invariant inp st hdays d hd with h | ⟨hmem, hsd, -⟩
  · exact .inl h
  · obtain ⟨h0, h6⟩ := offsetOf_mem_bounds _ hmem
    exact .inr ⟨hsd, by omega, by omega⟩

/-- Witness for the amended C7 at a concrete save. -/
theorem C7_witness :
    (⟨0, 0, 0, ⟨0, 28800⟩, ⟨0, 32400⟩, "شنبه", false⟩ : DetailRow) ∈ emptySt.details ∨
      ((⟨0, 28800⟩ : PyDateTime).day = c6Inp.weekStart + offsetOf "شنبه" ∧
        c6Inp.weekStart ≤ (⟨0, 28800⟩ : PyDateTime).day ∧
        (⟨0, 28800⟩ : PyDateTime).day ≤ c6Inp.weekEnd) :=
  C7_amended_dates_within_full_week c6Inp emptySt (by decide) (by decide)
    ⟨0, 0, 0, ⟨0, 28800⟩, ⟨0, 32400⟩, "شنبه", false⟩ (by decide)

/-! ## Lemmas for `check_weekly_report` -/

theorem minByWeekStart_eq_none : ∀ {l : List ReportRow}, minByWeekStart l = none ↔ l = []
  | [] => by simp [minByWeekStart]
  | x :: xs => by
    cases h : minByWeekStart xs <;> simp [minByWeekStart, h]

theorem minByWeekStart_mem : ∀ {l : List ReportRow} {r : ReportRow},
    minByWeekStart l = some r → r ∈ l
  | [], r => by simp [minByWeekStart]
  | x :: xs, r => by
    intro h
    cases hx : minByWeekStart xs with
    | none =>
      rw [minByWeekStart, hx] at h
      exact (Option.some_inj.mp h) ▸ List.mem_cons_self x xs
    | some b =>
      rw [minByWeekStart, hx] at h
      rcases Option.some_inj.mp h with rfl
      by_cases hc : x.weekStart ≤ b.weekStart
      · simp [hc]
      · simp only [if_neg hc]
        exact List.mem_cons_of_mem x (minByWeekStart_mem hx)

theorem minByWeekStart_min : ∀ {l : List ReportRow} {r : ReportRow},
    minByWeekStart l = some r → ∀ x ∈ l, r.weekStart ≤ x.weekStart
  | [], r => by simp [minByWeekStart]
  | x :: xs, r => by
    intro h y hy
    cases hx : minByWeekStart xs with
    | none =>
      rw [minByWeekStart, hx] at h
      rcases Option.some_inj.mp h with rfl
      rcases List.mem_cons.mp hy with rfl | hy
      · exact le_refl _
      · exact absurd (minByWeekStart_eq_none.mp hx ▸ hy) (List.not_mem_nil y)
    | some b =>
      rw [minByWeekStart, hx] at h
      rcases Option.some_inj.mp h with rfl
      rcases List.mem_cons.mp hy with rfl | hy
      · by_cases hc : y.weekStart ≤ b.weekStart <;> simp [hc]
        exact le_of_not_le hc
      · have hb := minByWeekStart_min hx y hy
        by_cases hc : x.weekStart ≤ b.weekStart <;> simp [hc]
        · exact le_trans hc hb
        · exact hb

/-- The current-report predicate of `check_weekly_report` as a proposition. -/
theorem check_pred_iff (sid : Nat) (d : Int) (r : ReportRow) :
    (r.studentId == sid && decide (r.weekStart ≤ d) && decide (d ≤ r.weekEnd)) = true ↔
      r.studentId = sid ∧ r.weekStart ≤ d ∧ d ≤ r.weekEnd := by
  simp [Bool.and_assoc, and_assoc]

/-- The future-report predicate of `check_weekly_report` as a proposition. -/
theorem future_pred_iff (sid : Nat) (d : Int) (r : ReportRow) :
    (r.studentId == sid && decide (d < r.weekStart)) = true ↔
      r.studentId = sid ∧ d < r.weekStart := by
  simp

/-! ## C3 -/

/-- C3: `check_weekly_report` returns exactly one of current/future/nothing
("none"); "current" is returned iff some report of the student has
`week_start ≤ date ≤ week_end`; failing that, "future" is returned iff some
report of the student has `week_start > date`, and the returned report is the
one with the smallest such `week_start`; otherwise the nothing answer is
returned. -/
theorem C3_check_weekly_report_trichotomy (reports : List ReportRow) (sid : Nat) (d : Int) :
    ((checkWeeklyReport reports sid d).isCurrent = true ↔
      ∃ r ∈ reports, r.studentId = sid ∧ r.weekStart ≤ d ∧ d ≤ r.weekEnd) ∧
    ((checkWeeklyReport reports sid d).isFuture = true ↔
      (¬ ∃ r ∈ reports, r.studentId = sid ∧ r.weekStart ≤ d ∧ d ≤ r.weekEnd) ∧
      ∃ r ∈ reports, r.studentId = sid ∧ d < r.weekStart) ∧
    ((checkWeeklyReport reports sid d).isNothing = true ↔
      (¬ ∃ r ∈ reports, r.studentId = sid ∧ r.weekStart ≤ d ∧ d ≤ r.weekEnd) ∧
      ¬ ∃ r ∈ reports, r.studentId = sid ∧ d < r.weekStart) ∧
    (∀ ws we, checkWeeklyReport reports sid d = .future ws we →
      d < ws ∧ ∃ r ∈ reports, r.studentId = sid ∧ r.weekStart = ws ∧ r.weekEnd = we ∧
        ∀ r' ∈ reports, r'.studentId = sid → d < r'.weekStart → ws ≤ r'.weekStart) := by
  have hcur : ∀ r : ReportRow,
      (fun r => r.studentId == sid && decide (r.weekStart ≤ d) && decide (d ≤ r.weekEnd)) r = true ↔
      r.studentId = sid ∧ r.weekStart ≤ d ∧ d ≤ r.weekEnd := fun r => check_pred_iff sid d r
  cases hf : reports.find? (fun r =>
      r.studentId == sid && decide (r.weekStart ≤ d) && decide (d ≤ r.weekEnd)) with
  | some r =>
    have hmem := List.mem_of_find?_eq_some hf
    have hp0 := List.find?_some hf
    have hp := (hcur r).mp hp0
    have hex : ∃ r ∈ reports, r.studentId = sid ∧ r.weekStart ≤ d ∧ d ≤ r.weekEnd :=
      ⟨r, hmem, hp⟩
    have hck : checkWeeklyReport reports sid d = .current r.weekStart r.weekEnd := by
      unfold checkWeeklyReport
      rw [hf]
    refine ⟨?_, ?_, ?_, ?_⟩
    · simp [hck, CheckOutcome.isCurrent, hex]
    · simp only [hck, CheckOutcome.isFuture]
      exact ⟨(fun h => nomatch h), fun hh => absurd hex hh.1⟩
    · simp only [hck, CheckOutcome.isNothing]
      exact ⟨(fun h => nomatch h), fun hh => absurd hex hh.1⟩
    · intro ws we heq
      rw [hck] at heq
      exact nomatch heq
  | none =>
    have hnc : ¬ ∃ r ∈ reports, r.studentId = sid ∧ r.weekStart ≤ d ∧ d ≤ r.weekEnd := by
      rintro ⟨r, hmem, hp⟩
      exact (List.find?_eq_none.mp hf r hmem) ((hcur r).mpr hp)
    cases hm : minByWeekStart (reports.filter (fun r =>
        r.studentId == sid && decide (d < r.weekStart))) with
    | some r =>
      have hmem' := minByWeekStart_mem hm
      have hrf := List.mem_filter.mp hmem'
      have hq := (future_pred_iff sid d r).mp hrf.2
      have hck : checkWeeklyReport reports sid d = .future r.weekStart r.weekEnd := by
        unfold checkWeeklyReport
        rw [hf, hm]
      refine ⟨?_, ?_, ?_, ?_⟩
      · simp only [hck, CheckOutcome.isCurrent]
        exact ⟨(fun h => nomatch h), fun hex => absurd hex hnc⟩
      · simp only [hck, CheckOutcome.isFuture, true_iff]
        exact ⟨hnc, r, hrf.1, hq⟩
      · simp only [hck, CheckOutcome.isNothing]
        exact ⟨(fun h => nomatch h), fun hh => absurd ⟨r, hrf.1, hq⟩ hh.2⟩
      · intro ws we heq
        rw [hck] at heq
        cases heq
        refine ⟨hq.2, r, hrf.1, hq.1, rfl, rfl, ?_⟩
        intro r' hr' hsid hfut
        exact minByWeekStart_min hm r'
          (List.mem_filter.mpr ⟨hr', (future_pred_iff sid d r').mpr ⟨hsid, hfut⟩⟩)
    | none =>
      have hempty := minByWeekStart_eq_none.mp hm
      have hnf : ¬ ∃ r ∈ reports, r.studentId = sid ∧ d < r.weekStart := by
        rintro ⟨r, hmem, hp⟩
        have : r ∈ reports.filter (fun r => r.studentId == sid && decide (d < r.weekStart)) :=
          List.mem_filter.mpr ⟨hmem, (future_pred_iff sid d r).mpr hp⟩
        rw [hempty] at this
        exact List.not_mem_nil r this
      have hck : checkWeeklyReport reports sid d = .nothing := by
        unfold checkWeeklyReport
        rw [hf, hm]
      refine ⟨?_, ?_, ?_, ?_⟩
      · simp only [hck, CheckOutcome.isCurrent]
        exact ⟨(fun h => nomatch h), fun hex => absurd hex hnc⟩
      · simp only [hck, CheckOutcome.isFuture]
        exact ⟨(fun h => nomatch h), fun hh => absurd hh.2 hnf⟩
      · simp only [hck, CheckOutcome.isNothing, true_iff]
        exact ⟨hnc, hnf⟩
      · intro ws we heq
        rw [hck] at heq
        exact nomatch heq

/-- Witness for C3 at a concrete report list: the lookup for date 2 finds no
covering report, so the characterisation yields the nearest future report. -/
theorem C3_witness :
    (checkWeeklyReport [⟨0, 1, 10, 16, "", [], ""⟩, ⟨1, 1, 3, 9, "", [], ""⟩] 1 2).isFuture = true ↔
      (¬ ∃ r ∈ [(⟨0, 1, 10, 16, "", [], ""⟩ : ReportRow), ⟨1, 1, 3, 9, "", [], ""⟩],
        r.studentId = 1 ∧ r.weekStart ≤ 2 ∧ 2 ≤ r.weekEnd) ∧
      ∃ r ∈ [(⟨0, 1, 10, 16, "", [], ""⟩ : ReportRow), ⟨1, 1, 3, 9, "", [], ""⟩],
        r.studentId = 1 ∧ 2 < r.weekStart :=
  (C3_check_weekly_report_trichotomy
    [⟨0, 1, 10, 16, "", [], ""⟩, ⟨1, 1, 3, 9, "", [], ""⟩] 1 2).2.1

/-! ## Lemmas for `copy_day_plan` -/

theorem filter_not_filter {α : Type} (p : α → Bool) :
    ∀ l : List α, (l.filter (fun a => !(p a))).filter p = []
  | [] => rfl
  | x :: xs => by
    cases hp : p x <;> simp [hp, filter_not_filter p xs]

/-- The copy loop: given that every source detail's box resolves, it succeeds
with the source count, leaves reports untouched, and appends one fresh detail
per source row, each stamped with the target report/day and a box id at or
above the incoming `nextBoxId`. -/
theorem copyDetails_spec (tid : Nat) (tday : String) :
    ∀ (ds : List DetailRow) (st : Store),
      (∀ d ∈ ds, ∃ b ∈ st.boxes, b.id = d.boxId) →
      (copyDetails st tid tday ds).1 = .ok ds.length ∧
      (copyDetails st tid tday ds).2.reports = st.reports ∧
      ∃ nds, (copyDetails st tid tday ds).2.details = st.details ++ nds ∧
        nds.length = ds.length ∧
        ∀ d ∈ nds, d.reportId = tid ∧ d.dayOfWeek = tday ∧
          st.nextBoxId ≤ d.boxId ∧ st.nextDetailId ≤ d.id
  | [], st => fun _ =>
    ⟨rfl, rfl, [], (List.append_nil _).symm, rfl, fun d hd => nomatch hd⟩
  | d :: ds, st => by
    intro hbox
    obtain ⟨b, hbmem, hbid⟩ := hbox d (List.mem_cons_self d ds)
    cases hfb : st.boxes.find? (fun b => b.id == d.boxId) with
    | none =>
      exact absurd (beq_iff_eq.mpr hbid) (List.find?_eq_none.mp hfb b hbmem)
    | some origBox =>
      have hboxes' : ∀ x ∈ ds,
          ∃ bb ∈ ({ st with
            boxes := st.boxes ++ [⟨st.nextBoxId, origBox.boxType, origBox.lesson,
              origBox.chapter, origBox.optionalTestsCount, origBox.durationMinutes,
              origBox.name, false⟩]
            nextBoxId := st.nextBoxId + 1
            details := st.details ++
              [⟨st.nextDetailId, tid, st.nextBoxId, d.startTime, d.endTime, tday, d.isDisabled⟩]
            nextDetailId := st.nextDetailId + 1 } : Store).boxes, bb.id = x.boxId := by
        intro x hx
        obtain ⟨bb, hbb, hbbid⟩ := hbox x (List.mem_cons_of_mem d hx)
        exact ⟨bb, List.mem_append_left _ hbb, hbbid⟩
      obtain ⟨hfst, hrep, nds, hdet, hlen, hprops⟩ :=
        copyDetails_spec tid tday ds _ hboxes'
      cases hrec : copyDetails
          { st with
            boxes := st.boxes ++ [⟨st.nextBoxId, origBox.boxType, origBox.lesson,
              origBox.chapter, origBox.optionalTestsCount, origBox.durationMinutes,
              origBox.name, false⟩]
            nextBoxId := st.nextBoxId + 1
            details := st.details ++
              [⟨st.nextDetailId, tid, st.nextBoxId, d.startTime, d.endTime, tday, d.isDisabled⟩]
            nextDetailId := st.nextDetailId + 1 } tid tday ds with
      | mk fst snd =>
        rw [hrec] at hfst hrep hdet
        subst hfst
        have hstep : copyDetails st tid tday (d :: ds) = (.ok (ds.length + 1), snd) := by
          simp [copyDetails, hfb, hrec]
        rw [hstep]
        refine ⟨rfl, hrep, ⟨st.nextDetailId, tid, st.nextBoxId, d.startTime, d.endTime,
          tday, d.isDisabled⟩ :: nds, ?_, by simp [hlen], ?_⟩
        · rw [hdet]
          simp
        · intro x hx
          rcases List.mem_cons.mp hx with rfl | hx
          · exact ⟨rfl, rfl, le_refl _, le_refl _⟩
          · obtain ⟨h1, h2, h3, h4⟩ := hprops x hx
            exact ⟨h1, h2, le_trans (Nat.le_succ _) h3, le_trans (Nat.le_succ _) h4⟩

/-! ## C4 -/

/-- C4: `copy_day_plan`'s contract.  With no report of the source student
covering the source date, or a covering report with no details on the source
date's weekday, it fails with a not-found error and leaves the store
untouched.  Otherwise, for a source day holding N detail rows, it succeeds
returning N, the target report's target day afterwards holds exactly N detail
rows, every detail row the operation added references a box id different from
every pre-existing box id (in particular from the source boxes), and every
detail row previously present on that target day is gone. -/
theorem C4_copy_day_plan_spec (st : Store) (inp : CopyInput) (hwf : StoreOk st) :
    (findSourceReport st inp = none →
      copyDayPlan inp st =
        (.error "No report found for the source student for the specified date.", st)) ∧
    (∀ sr, findSourceReport st inp = some sr → sourceDetailsOf st inp sr = [] →
      copyDayPlan inp st =
        (.error "No plan details found for the source date's day in the source report.", st)) ∧
    (∀ sr, findSourceReport st inp = some sr → sourceDetailsOf st inp sr ≠ [] →
      (∀ d ∈ sourceDetailsOf st inp sr, ∃ b ∈ st.boxes, b.id = d.boxId) →
      (copyDayPlan inp st).1 = .ok (sourceDetailsOf st inp sr).length ∧
      ((copyDayPlan inp st).2.details.filter (fun d =>
          d.reportId == (getOrCreateReport st inp.targetStudentId sr.weekStart
            sr.weekEnd "" "" []).1.id &&
          d.dayOfWeek == inp.targetDayOfWeek)).length =
        (sourceDetailsOf st inp sr).length ∧
      (∀ d ∈ (copyDayPlan inp st).2.details, d ∉ st.details →
        ∀ b ∈ st.boxes, d.boxId ≠ b.id) ∧
      (∀ d ∈ st.details,
        d.reportId = (getOrCreateReport st inp.targetStudentId sr.weekStart
          sr.weekEnd "" "" []).1.id →
        d.dayOfWeek = inp.targetDayOfWeek → d ∉ (copyDayPlan inp st).2.details)) := by
  refine ⟨?_, ?_, ?_⟩
  · intro hfind
    unfold copyDayPlan
    rw [hfind]
  · intro sr hfind hsd
    unfold copyDayPlan
    rw [hfind]
    simp [hsd]
  · intro sr hfind hne hbox
    have hEmp : (sourceDetailsOf st inp sr).isEmpty = false := by
      cases hsd : sourceDetailsOf st inp sr with
      | nil => exact absurd hsd hne
      | cons a l => rfl
    -- target upsert facts (all by definitional projection reduction)
    have hst2boxes :
        ({ (getOrCreateReport st inp.targetStudentId sr.weekStart sr.weekEnd "" "" []).2.2 with
          details := (getOrCreateReport st inp.targetStudentId sr.weekStart
            sr.weekEnd "" "" []).2.2.details.filter (fun d =>
            !(d.reportId == (getOrCreateReport st inp.targetStudentId sr.weekStart
              sr.weekEnd "" "" []).1.id && d.dayOfWeek == inp.targetDayOfWeek)) } : Store).boxes
          = st.boxes := getOrCreate_boxes st _ _ _ _ _ _
    have hbox2 : ∀ d ∈ sourceDetailsOf st inp sr,
        ∃ b ∈ ({ (getOrCreateReport st inp.targetStudentId sr.weekStart
            sr.weekEnd "" "" []).2.2 with
          details := (getOrCreateReport st inp.targetStudentId sr.weekStart
            sr.weekEnd "" "" []).2.2.details.filter (fun d =>
            !(d.reportId == (getOrCreateReport st inp.targetStudentId sr.weekStart
              sr.weekEnd "" "" []).1.id && d.dayOfWeek == inp.targetDayOfWeek)) } : Store).boxes,
          b.id = d.boxId := by
      rw [hst2boxes]
      exact hbox
    obtain ⟨hfst, hrep, nds, hdet, hlen, hprops⟩ :=
      copyDetails_spec (getOrCreateReport st inp.targetStudentId sr.weekStart
        sr.weekEnd "" "" []).1.id inp.targetDayOfWeek (sourceDetailsOf st inp sr) _ hbox2
    cases hrec : copyDetails
        { (getOrCreateReport st inp.targetStudentId sr.weekStart sr.weekEnd "" "" []).2.2 with
          details := (getOrCreateReport st inp.targetStudentId sr.weekStart
            sr.weekEnd "" "" []).2.2.details.filter (fun d =>
            !(d.reportId == (getOrCreateReport st inp.targetStudentId sr.weekStart
              sr.weekEnd "" "" []).1.id && d.dayOfWeek == inp.targetDayOfWeek)) }
        (getOrCreateReport st inp.targetStudentId sr.weekStart sr.weekEnd "" "" []).1.id
        inp.targetDayOfWeek (sourceDetailsOf st inp sr) with
    | mk fst snd =>
      rw [hrec] at hfst hrep hdet
      subst hfst
      have hstep : copyDayPlan inp st =
          (.ok (sourceDetailsOf st inp sr).length,
            (appendReportLog snd (getOrCreateReport st inp.targetStudentId sr.weekStart
              sr.weekEnd "" "" []).1 "Copied day plan").2) := by
        unfold copyDayPlan
        rw [hfind]
        simp only [hEmp, Bool.false_eq_true, if_false]
        rw [hrec]
      have hfinal : (copyDayPlan inp st).2.details = snd.details := by
        rw [hstep]
        rfl
      have hst2det :
          ({ (getOrCreateReport st inp.targetStudentId sr.weekStart sr.weekEnd "" "" []).2.2 with
            details := (getOrCreateReport st inp.targetStudentId sr.weekStart
              sr.weekEnd "" "" []).2.2.details.filter (fun d =>
              !(d.reportId == (getOrCreateReport st inp.targetStudentId sr.weekStart
                sr.weekEnd "" "" []).1.id && d.dayOfWeek == inp.targetDayOfWeek)) } : Store).details
            = st.details.filter (fun d =>
              !(d.reportId == (getOrCreateReport st inp.targetStudentId sr.weekStart
                sr.weekEnd "" "" []).1.id && d.dayOfWeek == inp.targetDayOfWeek)) := by
        have h := getOrCreate_details st inp.targetStudentId sr.weekStart sr.weekEnd "" "" []
        simp only [h]
      rw [hst2det] at hdet
      refine ⟨by rw [hstep], ?_, ?_, ?_⟩
      · rw [hfinal, hdet, List.filter_append, filter_not_filter]
        rw [List.nil_append, ← hlen]
        congr 1
        refine List.filter_eq_self.mpr ?_
        intro d hd
        obtain ⟨h1, h2, -, -⟩ := hprops d hd
        simp [h1, h2]
      · intro d hd hnotin b hb
        rw [hfinal, hdet] at hd
        rcases List.mem_append.mp hd with hd | hd
        · exact absurd (List.mem_of_mem_filter hd) hnotin
        · obtain ⟨-, -, h3, -⟩ := hprops d hd
          have hst2n :
              ({ (getOrCreateReport st inp.targetStudentId sr.weekStart
                  sr.weekEnd "" "" []).2.2 with
                details := (getOrCreateReport st inp.targetStudentId sr.weekStart
                  sr.weekEnd "" "" []).2.2.details.filter (fun d =>
                  !(d.reportId == (getOrCreateReport st inp.targetStudentId sr.weekStart
                    sr.weekEnd "" "" []).1.id && d.dayOfWeek == inp.targetDayOfWeek)) } : Store).nextBoxId
                = st.nextBoxId := getOrCreate_nextBoxId st _ _ _ _ _ _
          rw [hst2n] at h3
          have := hwf.1 b hb
          omega
      · intro d hd hrid hday hmem
        rw [hfinal, hdet] at hmem
        rcases List.mem_append.mp hmem with hm | hm
        · have := (List.mem_filter.mp hm).2
          simp [hrid, hday] at this
        · obtain ⟨-, -, -, h4⟩ := hprops d hm
          have hst2nd :
              ({ (getOrCreateReport st inp.targetStudentId sr.weekStart
                  sr.weekEnd "" "" []).2.2 with
                details := (getOrCreateReport st inp.targetStudentId sr.weekStart
                  sr.weekEnd "" "" []).2.2.details.filter (fun d =>
                  !(d.reportId == (getOrCreateReport st inp.targetStudentId sr.weekStart
                    sr.weekEnd "" "" []).1.id && d.dayOfWeek == inp.targetDayOfWeek)) } : Store).nextDetailId
                = st.nextDetailId := getOrCreate_nextDetailId st _ _ _ _ _ _
          rw [hst2nd] at h4
          have := hwf.2.2 d hd
          omega

/-- Witness for C4: copying the one-detail Saturday of the `cpSt` fixture
succeeds with count 1. -/
theorem C4_witness : (copyDayPlan cpInp cpSt).1 = .ok 1 :=
  ((C4_copy_day_plan_spec cpSt cpInp (by decide)).2.2
    ⟨0, 1, 5, 11, "", [], ""⟩ (by decide) (by decide) (by decide)).1

/-! ## Abort/append lemmas for `save_weekly_report` -/

/-- An aborting task leaves the store untouched: every abort point of the task
loop (time parsing, box-type lookup, lesson lookup) precedes the row inserts. -/
theorem processTask_abort (st : Store) (ctx : TaskCtx) (t : TaskInput) (e : String)
    (h : (processTask st ctx t).1 = some e) : (processTask st ctx t).2 = st := by
  rcases processTask_spec st ctx t with ⟨e', he⟩ | ⟨box, s1, s2, -, he⟩
  · rw [he]
  · rw [he] at h
    exact absurd h (by simp)

theorem processTasks_cons_err (st : Store) (ctx : TaskCtx) (t : TaskInput)
    (ts : List TaskInput) (e : String) (h : (processTask st ctx t).1 = some e) :
    processTasks st ctx (t :: ts) = (some e, st) := by
  have h2 := processTask_abort st ctx t e h
  cases hpt : processTask st ctx t with
  | mk fst snd =>
    rw [hpt] at h h2
    simp only at h h2
    subst h
    subst h2
    simp [processTasks, hpt]

theorem processTasks_append_ok (ctx : TaskCtx) :
    ∀ (l₁ l₂ : List TaskInput) (st : Store), (processTasks st ctx l₁).1 = none →
      processTasks st ctx (l₁ ++ l₂) = processTasks (processTasks st ctx l₁).2 ctx l₂
  | [], l₂, st => fun _ => rfl
  | t :: l₁, l₂, st => by
    intro h
    cases hpt : processTask st ctx t with
    | mk fst snd =>
      cases fst with
      | some e => rw [processTasks, hpt] at h; exact absurd h (by simp)
      | none =>
        have h' : (processTasks snd ctx l₁).1 = none := by
          rw [processTasks, hpt] at h; exact h
        calc processTasks st ctx (t :: l₁ ++ l₂)
            = processTasks snd ctx (l₁ ++ l₂) := by simp [processTasks, hpt]
          _ = processTasks (processTasks snd ctx l₁).2 ctx l₂ :=
              processTasks_append_ok ctx l₁ l₂ snd h'
          _ = processTasks (processTasks st ctx (t :: l₁)).2 ctx l₂ := by
              simp [processTasks, hpt]

theorem processDays_append_ok (rid : Nat) (ws : Int) :
    ∀ (l₁ l₂ : List DayInput) (st : Store), (processDays st rid ws l₁).1 = none →
      processDays st rid ws (l₁ ++ l₂) = processDays (processDays st rid ws l₁).2 rid ws l₂
  | [], l₂, st => fun _ => rfl
  | d :: l₁, l₂, st => by
    intro h
    cases hpt : processTasks st (taskCtxFor rid ws d) d.tasks with
    | mk fst snd =>
      cases fst with
      | some e => rw [processDays, hpt] at h; exact absurd h (by simp)
      | none =>
        have h' : (processDays snd rid ws l₁).1 = none := by
          rw [processDays, hpt] at h; exact h
        calc processDays st rid ws (d :: l₁ ++ l₂)
            = processDays snd rid ws (l₁ ++ l₂) := by simp [processDays, hpt]
          _ = processDays (processDays snd rid ws l₁).2 rid ws l₂ :=
              processDays_append_ok rid ws l₁ l₂ snd h'
          _ = processDays (processDays st rid ws (d :: l₁)).2 rid ws l₂ := by
              simp [processDays, hpt]

theorem processDays_cons_err (st : Store) (rid : Nat) (ws : Int) (d : DayInput)
    (ds : List DayInput) (e : String) (st' : Store)
    (h : processTasks st (taskCtxFor rid ws d) d.tasks = (some e, st')) :
    processDays st rid ws (d :: ds) = (some e, st') := by
  simp [processDays, h]

/-- An erroring day-processing phase makes the whole save surface the error,
with the store exactly as the failing phase left it. -/
theorem saveWeeklyReport_err (inp : SaveInput) (st : Store) (e : String) (st' : Store)
    (h : processDays (saveReportPhase st inp).2 (saveReportPhase st inp).1.id
      inp.weekStart inp.days = (some e, st')) :
    saveWeeklyReport inp st = (.error e, st') := by
  simp only [saveWeeklyReport, h]

/-! ## C8 -/

/-- C8: when `save_weekly_report` raises partway through the day/task list —
here: the days before the failing one and the tasks before the failing one
within its day all succeed, and then task `t` aborts (malformed time string,
missing box type, dangling lesson id) — the operation surfaces the error as a
failure response, and the final store is exactly the store reached after the
successful prefix: every `Box` and `WeeklyReportDetail` row created before the
exception remains, and nothing is rolled back. -/
theorem C8_partial_writes_survive_error (inp : SaveInput) (st : Store)
    (days₁ : List DayInput) (dname : String) (dis : Bool)
    (ts₁ : List TaskInput) (t : TaskInput) (ts₂ : List TaskInput)
    (days₂ : List DayInput) (e : String)
    (hdays : inp.days = days₁ ++ ⟨dname, dis, ts₁ ++ t :: ts₂⟩ :: days₂)
    (hpre : (processDays (saveReportPhase st inp).2 (saveReportPhase st inp).1.id
      inp.weekStart days₁).1 = none)
    (hts : (processTasks
      (processDays (saveReportPhase st inp).2 (saveReportPhase st inp).1.id
        inp.weekStart days₁).2
      (taskCtxFor (saveReportPhase st inp).1.id inp.weekStart ⟨dname, dis, ts₁ ++ t :: ts₂⟩)
      ts₁).1 = none)
    (habort : (processTask
      (processTasks
        (processDays (saveReportPhase st inp).2 (saveReportPhase st inp).1.id
          inp.weekStart days₁).2
        (taskCtxFor (saveReportPhase st inp).1.id inp.weekStart ⟨dname, dis, ts₁ ++ t :: ts₂⟩)
        ts₁).2
      (taskCtxFor (saveReportPhase st inp).1.id inp.weekStart ⟨dname, dis, ts₁ ++ t :: ts₂⟩)
      t).1 = some e) :
    saveWeeklyReport inp st =
      (.error e,
        (processTasks
          (processDays (saveReportPhase st inp).2 (saveReportPhase st inp).1.id
            inp.weekStart days₁).2
          (taskCtxFor (saveReportPhase st inp).1.id inp.weekStart ⟨dname, dis, ts₁ ++ t :: ts₂⟩)
          ts₁).2) := by
  apply saveWeeklyReport_err
  rw [hdays]
  rw [processDays_append_ok _ _ days₁ _ _ hpre]
  apply processDays_cons_err
  rw [show (⟨dname, dis, ts₁ ++ t :: ts₂⟩ : DayInput).tasks = ts₁ ++ t :: ts₂ from rfl]
  rw [processTasks_append_ok _ ts₁ _ _ hts]
  exact processTasks_cons_err _ _ _ _ _ habort

/-- Witness for C8: in a one-day save whose second task has a malformed start
time, the first task's box and detail rows persist and the save reports the
parse error. -/
theorem C8_witness :
    saveWeeklyReport c8Inp emptySt =
      (.error "time data does not match format",
        (processTasks
          (processDays (saveReportPhase emptySt c8Inp).2
            (saveReportPhase emptySt c8Inp).1.id c8Inp.weekStart []).2
          (taskCtxFor (saveReportPhase emptySt c8Inp).1.id c8Inp.weekStart
            ⟨"شنبه", false, [okTask] ++ badTask :: []⟩)
          [okTask]).2) :=
  C8_partial_writes_survive_error c8Inp emptySt [] "شنبه" false [okTask] badTask [] []
    "time data does not match format" (by decide) (by decide) (by decide) (by decide)

/-! ## Characterising the two `save_weekly_report` report-phase paths -/

theorem applyUpdateFields_logs (old mem : ReportRow) :
    applyUpdateFields old mem ["logs"] = { old with logs := mem.logs } := rfl

theorem applyUpdateFields_wdl (old mem : ReportRow) :
    applyUpdateFields old mem ["week_end", "disabled_days", "logs"] =
      { old with weekEnd := mem.weekEnd, disabledDays := mem.disabledDays,
                 logs := mem.logs } := rfl

theorem djangoSave_logs_reports (st : Store) (mem : ReportRow) :
    (djangoSave st mem ["logs"]).reports =
      st.reports.map (fun x => if x.id == mem.id then { x with logs := mem.logs } else x) := by
  unfold djangoSave updateReport
  dsimp only
  refine List.map_congr_left ?_
  intro x _
  by_cases hx : x.id == mem.id <;> simp [hx, applyUpdateFields_logs]

theorem djangoSave_wdl_reports (st : Store) (mem : ReportRow) :
    (djangoSave st mem ["week_end", "disabled_days", "logs"]).reports =
      st.reports.map (fun x => if x.id == mem.id then
        { x with weekEnd := mem.weekEnd, disabledDays := mem.disabledDays,
                 logs := mem.logs } else x) := by
  unfold djangoSave updateReport
  dsimp only
  refine List.map_congr_left ?_
  intro x _
  by_cases hx : x.id == mem.id <;> simp [hx, applyUpdateFields_wdl]

theorem djangoSave_logs_twice (st : Store) (mem : ReportRow) :
    djangoSave (djangoSave st mem ["logs"]) mem ["logs"] = djangoSave st mem ["logs"] := by
  unfold djangoSave updateReport
  dsimp only
  congr 1
  rw [List.map_map]
  refine List.map_congr_left ?_
  intro x _
  by_cases hx : x.id == mem.id
  · simp [Function.comp, hx, applyUpdateFields_logs]
  · simp [Function.comp, hx]

/-- The create path of the report phase: no report for (student, week_start)
exists, so a fresh row is appended whose log holds the "Report created" entry
and whose `important_events` carries the request value. -/
theorem saveReportPhase_created (st : Store) (inp : SaveInput)
    (h : findReport st inp.studentId inp.weekStart = none) :
    saveReportPhase st inp =
      (⟨st.nextReportId, inp.studentId, inp.weekStart, inp.weekEnd,
        String.intercalate "," ((inp.days.filter (·.disabled)).map (·.day)),
        ["Report created"], inp.importantEvents⟩,
       { st with
         reports := st.reports ++
           [⟨st.nextReportId, inp.studentId, inp.weekStart, inp.weekEnd,
             String.intercalate "," ((inp.days.filter (·.disabled)).map (·.day)),
             ["Report created"], inp.importantEvents⟩]
         nextReportId := st.nextReportId + 1 }) := by
  simp only [saveReportPhase, getOrCreateReport, h]
  rfl

/-- The update path, in-memory row: week_end/disabled-days/important-events
are assigned and the "Report updated" entry is appended. -/
theorem saveReportPhase_updated_fst (st : Store) (inp : SaveInput) (r : ReportRow)
    (h : findReport st inp.studentId inp.weekStart = some r) :
    (saveReportPhase st inp).1 =
      ⟨r.id, r.studentId, r.weekStart, inp.weekEnd,
        String.intercalate "," ((inp.days.filter (·.disabled)).map (·.day)),
        r.logs ++ ["Report updated"], inp.importantEvents⟩ := by
  simp only [saveReportPhase, getOrCreateReport, h]
  rfl

/-- The update path deletes exactly the detail rows of the existing report. -/
theorem saveReportPhase_updated_details (st : Store) (inp : SaveInput) (r : ReportRow)
    (h : findReport st inp.studentId inp.weekStart = some r) :
    (saveReportPhase st inp).2.details =
      st.details.filter (fun d => d.reportId ≠ r.id) := by
  simp only [saveReportPhase, getOrCreateReport, h]
  rfl

theorem saveReportPhase_updated_nextDetailId (st : Store) (inp : SaveInput) (r : ReportRow)
    (h : findReport st inp.studentId inp.weekStart = some r) :
    (saveReportPhase st inp).2.nextDetailId = st.nextDetailId := by
  simp only [saveReportPhase, getOrCreateReport, h]
  rfl

/-- The update path rewrites the stored row in place: week_end, disabled-days
and logs are persisted, while `important_events` keeps its stored value (it is
missing from `update_fields`); all other rows are untouched. -/
theorem saveReportPhase_updated_reports (st : Store) (inp : SaveInput) (r : ReportRow)
    (h : findReport st inp.studentId inp.weekStart = some r) :
    (saveReportPhase st inp).2.reports =
      st.reports.map (fun x => if x.id == r.id then
        { x with weekEnd := inp.weekEnd,
                 disabledDays :=
                   String.intercalate "," ((inp.days.filter (·.disabled)).map (·.day)),
                 logs := r.logs ++ ["Report updated"] } else x) := by
  simp only [saveReportPhase, getOrCreateReport, h, appendReportLog,
    Bool.false_eq_true, if_false]
  rw [djangoSave_wdl_reports]
  dsimp only
  rw [djangoSave_logs_reports, List.map_map]
  refine List.map_congr_left ?_
  intro x _
  by_cases hx : x.id == r.id
  · simp [Function.comp, hx]
  · simp [Function.comp, hx]

/-- The successful tail of `save_weekly_report`: append the final log entry
and persist the logs (twice, identically). -/
theorem saveWeeklyReport_ok (inp : SaveInput) (st : Store) (stB : Store)
    (h : processDays (saveReportPhase st inp).2 (saveReportPhase st inp).1.id
      inp.weekStart inp.days = (none, stB)) :
    saveWeeklyReport inp st =
      (.ok (), djangoSave stB
        { (saveReportPhase st inp).1 with
          logs := (saveReportPhase st inp).1.logs ++ ["Report details saved"] }
        ["logs"]) := by
  simp only [saveWeeklyReport, h, appendReportLog]
  rw [djangoSave_logs_twice]

/-- A successful first save for an absent (student, week_start) key appends
exactly one report row — logs ["Report created", "Report details saved"],
`important_events` persisted — plus fresh detail rows for that report. -/
theorem save_created_char (inp : SaveInput) (st : Store) (hwf : StoreOk st)
    (h0 : findReport st inp.studentId inp.weekStart = none)
    (h1 : (saveWeeklyReport inp st).1 = .ok ()) :
    ∃ nds,
      (saveWeeklyReport inp st).2.reports = st.reports ++
        [⟨st.nextReportId, inp.studentId, inp.weekStart, inp.weekEnd,
          String.intercalate "," ((inp.days.filter (·.disabled)).map (·.day)),
          ["Report created", "Report details saved"], inp.importantEvents⟩] ∧
      (saveWeeklyReport inp st).2.details = st.details ++ nds ∧
      (∀ d ∈ nds, d.reportId = st.nextReportId ∧ st.nextDetailId ≤ d.id ∧
        d.id < (saveWeeklyReport inp st).2.nextDetailId) ∧
      st.nextDetailId ≤ (saveWeeklyReport inp st).2.nextDetailId := by
  cases hpd : processDays (saveReportPhase st inp).2 (saveReportPhase st inp).1.id
      inp.weekStart inp.days with
  | mk fst stB =>
    cases fst with
    | some e =>
      rw [saveWeeklyReport_err inp st e stB hpd] at h1
      simp at h1
    | none =>
      have hok := saveWeeklyReport_ok inp st stB hpd
      obtain ⟨hBrep, hBnrep, hBle, nds, hBdet, hBprops⟩ :=
        processDays_evolve (saveReportPhase st inp).1.id inp.weekStart inp.days
          (saveReportPhase st inp).2
      rw [hpd] at hBrep hBnrep hBle hBdet hBprops
      simp only [saveReportPhase_created st inp h0] at hBrep hBnrep hBle hBdet hBprops hok
      refine ⟨nds, ?_, ?_, ?_, ?_⟩
      · simp only [hok, djangoSave_logs_reports]
        rw [hBrep, List.map_append]
        have hpre : st.reports.map (fun x => if x.id == st.nextReportId then
            { x with logs := ["Report created"] ++ ["Report details saved"] } else x) =
            st.reports := by
          conv_rhs => rw [← List.map_id st.reports]
          refine List.map_congr_left ?_
          intro x hx
          have hlt := hwf.2.1 x hx
          have hne : ¬ x.id = st.nextReportId := by omega
          simp [hne]
        rw [hpre]
        simp
      · simp only [hok, djangoSave_details]
        rw [hBdet]
      · intro d hd
        obtain ⟨hh1, hh2, hh3, -⟩ := hBprops d hd
        exact ⟨hh1, hh2, by simpa [hok, djangoSave_nextDetailId] using hh3⟩
      · simpa [hok, djangoSave_nextDetailId] using hBle

/-- A successful save for an existing report rewrites that report's row in
place (appending "Report updated" and "Report details saved" to its log),
replaces its detail rows by fresh ones, and touches no other report row. -/
theorem save_updated_char (inp : SaveInput) (st : Store) (r : ReportRow)
    (hfind : findReport st inp.studentId inp.weekStart = some r)
    (h1 : (saveWeeklyReport inp st).1 = .ok ()) :
    ∃ nds,
      (saveWeeklyReport inp st).2.reports = st.reports.map (fun x => if x.id == r.id then
        { x with weekEnd := inp.weekEnd,
                 disabledDays :=
                   String.intercalate "," ((inp.days.filter (·.disabled)).map (·.day)),
                 logs := (r.logs ++ ["Report updated"]) ++ ["Report details saved"] } else x) ∧
      (saveWeeklyReport inp st).2.details =
        st.details.filter (fun d => d.reportId ≠ r.id) ++ nds ∧
      (∀ d ∈ nds, d.reportId = r.id ∧ st.nextDetailId ≤ d.id) := by
  cases hpd : processDays (saveReportPhase st inp).2 (saveReportPhase st inp).1.id
      inp.weekStart inp.days with
  | mk fst stE =>
    cases fst with
    | some e =>
      rw [saveWeeklyReport_err inp st e stE hpd] at h1
      simp at h1
    | none =>
      have hok := saveWeeklyReport_ok inp st stE hpd
      obtain ⟨hErep, hEnrep, hEle, nds, hEdet, hEprops⟩ :=
        processDays_evolve (saveReportPhase st inp).1.id inp.weekStart inp.days
          (saveReportPhase st inp).2
      rw [hpd] at hErep hEnrep hEle hEdet hEprops
      have hphfst := saveReportPhase_updated_fst st inp r hfind
      have hphdet := saveReportPhase_updated_details st inp r hfind
      have hphnd := saveReportPhase_updated_nextDetailId st inp r hfind
      have hphrep := saveReportPhase_updated_reports st inp r hfind
      refine ⟨nds, ?_, ?_, ?_⟩
      · simp only [hok, djangoSave_logs_reports, hphfst]
        rw [hErep, hphrep, List.map_map]
        refine List.map_congr_left ?_
        intro x _
        by_cases hxid : (x.id == r.id) = true
        · simp [Function.comp, hxid]
        · simp [Function.comp, hxid]
      · simp only [hok, djangoSave_details]
        rw [hEdet, hphdet]
      · intro d hd
        obtain ⟨hh1, hh2, -, -⟩ := hEprops d hd
        rw [hphnd] at hh2
        exact ⟨by simpa [hphfst] using hh1, hh2⟩

/-! ## C6 -/

/-- C6: running `save_weekly_report` twice with identical input, starting with
no report for (student, week_start), leaves exactly one report row for that
key (the second call follows the update path and the report-table length does
not grow), the report's log afterwards holds exactly "Report created",
"Report details saved", "Report updated", "Report details saved" in order, and
the detail rows of that report after the second call are all fresh rows (their
ids differ from every detail row the first call left for the report). -/
theorem C6_double_save_updates_not_duplicates (inp : SaveInput) (st : Store)
    (hwf : StoreOk st)
    (h0 : findReport st inp.studentId inp.weekStart = none)
    (h1 : (saveWeeklyReport inp st).1 = .ok ())
    (h2 : (saveWeeklyReport inp (saveWeeklyReport inp st).2).1 = .ok ()) :
    ((saveWeeklyReport inp (saveWeeklyReport inp st).2).2.reports.filter
      (fun x => x.studentId == inp.studentId && x.weekStart == inp.weekStart)).length = 1 ∧
    (saveWeeklyReport inp (saveWeeklyReport inp st).2).2.reports.length =
      (saveWeeklyReport inp st).2.reports.length ∧
    ∃ r, findReport (saveWeeklyReport inp (saveWeeklyReport inp st).2).2
        inp.studentId inp.weekStart = some r ∧
      r.logs = ["Report created", "Report details saved", "Report updated",
        "Report details saved"] ∧
      (∀ d ∈ (saveWeeklyReport inp (saveWeeklyReport inp st).2).2.details,
        d.reportId = r.id →
        ∀ d' ∈ (saveWeeklyReport inp st).2.details, d'.reportId = r.id →
          d'.id ≠ d.id) := by
  obtain ⟨nds1, hr1, hd1, hp1, hle1⟩ := save_created_char inp st hwf h0 h1
  have hfind1 : findReport (saveWeeklyReport inp st).2 inp.studentId inp.weekStart =
      some ⟨st.nextReportId, inp.studentId, inp.weekStart, inp.weekEnd,
        String.intercalate "," ((inp.days.filter (·.disabled)).map (·.day)),
        ["Report created", "Report details saved"], inp.importantEvents⟩ := by
    unfold findReport
    rw [hr1, List.find?_append]
    have hnone : st.reports.find?
        (fun x => x.studentId == inp.studentId && x.weekStart == inp.weekStart) = none := h0
    rw [hnone]
    simp
  obtain ⟨nds2, hr2, hd2, hp2⟩ :=
    save_updated_char inp (saveWeeklyReport inp st).2 _ hfind1 h2
  dsimp only at hr2 hd2 hp2
  rw [hr1, List.map_append] at hr2
  have hpre : st.reports.map (fun x => if x.id == st.nextReportId then
      { x with weekEnd := inp.weekEnd,
               disabledDays :=
                 String.intercalate "," ((inp.days.filter (·.disabled)).map (·.day)),
               logs := (["Report created", "Report details saved"] ++ ["Report updated"]) ++
                 ["Report details saved"] } else x) = st.reports := by
    conv_rhs => rw [← List.map_id st.reports]
    refine List.map_congr_left ?_
    intro x hx
    have hlt := hwf.2.1 x hx
    have hne : ¬ x.id = st.nextReportId := by omega
    simp [hne]
  rw [hpre] at hr2
  have hsingle : List.map (fun x : ReportRow => if x.id == st.nextReportId then
      { x with weekEnd := inp.weekEnd,
               disabledDays :=
                 String.intercalate "," ((inp.days.filter (·.disabled)).map (·.day)),
               logs := (["Report created", "Report details saved"] ++ ["Report updated"]) ++
                 ["Report details saved"] } else x)
      [⟨st.nextReportId, inp.studentId, inp.weekStart, inp.weekEnd,
        String.intercalate "," ((inp.days.filter (·.disabled)).map (·.day)),
        ["Report created", "Report details saved"], inp.importantEvents⟩] =
      [⟨st.nextReportId, inp.studentId, inp.weekStart, inp.weekEnd,
        String.intercalate "," ((inp.days.filter (·.disabled)).map (·.day)),
        ["Report created", "Report details saved", "Report updated", "Report details saved"],
        inp.importantEvents⟩] := by
    simp
  rw [hsingle] at hr2
  have hkeyfalse : ∀ x ∈ st.reports,
      ¬ (x.studentId == inp.studentId && x.weekStart == inp.weekStart) = true := by
    intro x hx
    exact List.find?_eq_none.mp h0 x hx
  refine ⟨?_, ?_, ?_⟩
  · rw [hr2, List.filter_append]
    rw [List.filter_eq_nil_iff.mpr hkeyfalse]
    simp
  · rw [hr2, hr1]
    simp
  · refine ⟨⟨st.nextReportId, inp.studentId, inp.weekStart, inp.weekEnd,
      String.intercalate "," ((inp.days.filter (·.disabled)).map (·.day)),
      ["Report created", "Report details saved", "Report updated", "Report details saved"],
      inp.importantEvents⟩, ?_, rfl, ?_⟩
    · unfold findReport
      rw [hr2, List.find?_append]
      have hnone : st.reports.find?
          (fun x => x.studentId == inp.studentId && x.weekStart == inp.weekStart) = none := h0
      rw [hnone]
      simp
    · intro d hd hdrep d' hd' hd'rep
      dsimp only at hdrep hd'rep
      rw [hd2] at hd
      rcases List.mem_append.mp hd with hmem | hmem
      · have hpred := (List.mem_filter.mp hmem).2
        simp [hdrep] at hpred
      · have hdid := (hp2 d hmem).2
        rw [hd1] at hd'
        rcases List.mem_append.mp hd' with hm' | hm'
        · have := hwf.2.2 d' hm'
          omega
        · have := (hp1 d' hm').2.2
          omega

/-- Witness for C6: saving the one-task Saturday plan twice into an empty
store leaves exactly one report row for the key. -/
theorem C6_witness :
    ((saveWeeklyReport c6Inp (saveWeeklyReport c6Inp emptySt).2).2.reports.filter
      (fun x => x.studentId == c6Inp.studentId && x.weekStart == c6Inp.weekStart)).length = 1 :=
  (C6_double_save_updates_not_duplicates c6Inp emptySt (by decide) (by decide)
    (by decide) (by decide)).1

/-! ## Lemmas for the lesson-recommendation functions -/

theorem insertSorted_mem (key : LessonRow → Nat × Nat) (x : LessonRow) :
    ∀ (l : List LessonRow) (y : LessonRow), y ∈ insertSorted key x l ↔ y = x ∨ y ∈ l
  | [], y => by simp [insertSorted]
  | z :: zs, y => by
    by_cases hk : keyLt (key z) (key x) = true
    · simp only [insertSorted, if_pos hk, List.mem_cons, insertSorted_mem key x zs y]
      tauto
    · simp only [insertSorted, if_neg hk, List.mem_cons]

theorem sortByKey_mem (key : LessonRow → Nat × Nat) :
    ∀ (l : List LessonRow) (y : LessonRow), y ∈ sortByKey key l ↔ y ∈ l
  | [], y => by simp [sortByKey]
  | x :: xs, y => by
    simp only [sortByKey, insertSorted_mem key x (sortByKey key xs) y,
      sortByKey_mem key xs y, List.mem_cons]

/-- The bucketing loop of `sort_lessons_for_student`: when it finishes without
an exception, every lesson in the specialized bucket has its name in the
major's subject list and no lesson in the general bucket does (the `elif`
branch is reached only when the name test failed). -/
theorem bucketLessons_spec (um : String) (ml : List String) (ch : List ChapterRow) :
    ∀ (ls : List LessonRow) (lmaj : Option String) (s g : List LessonRow),
      bucketLessons um ml ch ls lmaj = some (s, g) →
      (∀ l ∈ s, ml.contains l.name = true) ∧ (∀ l ∈ g, ml.contains l.name = false)
  | [], lmaj, s, g => by
    intro h
    simp only [bucketLessons, Option.some_inj, Prod.mk.injEq] at h
    obtain ⟨h1, h2⟩ := h
    subst h1
    subst h2
    exact ⟨(fun l hl => nomatch hl), (fun l hl => nomatch hl)⟩
  | l :: ls, lmaj, s, g => by
    intro h
    rw [bucketLessons] at h
    cases hf : ch.find? (fun c => c.lessonId == l.id) with
    | none =>
      simp only [hf] at h
      exact Option.noConfusion h
    | some chx =>
      simp only [hf] at h
      cases htr : chx.track with
      | none =>
        simp only [htr] at h
        exact Option.noConfusion h
      | some track =>
        simp only [htr] at h
        by_cases hml : ml.contains l.name = true
        · rw [if_pos hml] at h
          cases hrec : bucketLessons um ml ch ls (trackToMajor track lmaj) with
          | none =>
            simp only [hrec] at h
            exact Option.noConfusion h
          | some p =>
            simp only [hrec] at h
            obtain ⟨s', g'⟩ := p
            simp only [Option.some_inj, Prod.mk.injEq] at h
            obtain ⟨h1, h2⟩ := h
            subst h1
            subst h2
            obtain ⟨ih1, ih2⟩ := bucketLessons_spec um ml ch ls _ s' g' hrec
            refine ⟨?_, ih2⟩
            intro x hx
            rcases List.mem_cons.mp hx with rfl | hx
            · exact hml
            · exact ih1 x hx
        · rw [if_neg hml] at h
          cases hmj : trackToMajor track lmaj with
          | none =>
            simp only [hmj] at h
            exact Option.noConfusion h
          | some m =>
            simp only [hmj] at h
            by_cases hum : (um == m) = true
            · rw [if_pos hum] at h
              cases hrec : bucketLessons um ml ch ls (some m) with
              | none =>
                simp only [hrec] at h
                exact Option.noConfusion h
              | some p =>
                simp only [hrec] at h
                obtain ⟨s', g'⟩ := p
                simp only [Option.some_inj, Prod.mk.injEq] at h
                obtain ⟨h1, h2⟩ := h
                subst h1
                subst h2
                obtain ⟨ih1, ih2⟩ := bucketLessons_spec um ml ch ls _ s' g' hrec
                refine ⟨ih1, ?_⟩
                intro x hx
                rcases List.mem_cons.mp hx with rfl | hx
                · exact Bool.eq_false_iff.mpr hml
                · exact ih2 x hx
            · rw [if_neg hum] at h
              exact bucketLessons_spec um ml ch ls _ s g h

/-- The stricter bucketing loop of `get_lessons_for_student`: specialized
lessons have their name in the subject list, general lessons do not. -/
theorem strictBucket_spec (code : String) (ml : List String) (ch : List ChapterRow) :
    ∀ ls : List LessonRow,
      (∀ l ∈ (strictBucket code ml ch ls).1, ml.contains l.name = true) ∧
      (∀ l ∈ (strictBucket code ml ch ls).2, ml.contains l.name = false)
  | [] => ⟨(fun l hl => nomatch hl), (fun l hl => nomatch hl)⟩
  | l :: ls => by
    obtain ⟨ih1, ih2⟩ := strictBucket_spec code ml ch ls
    by_cases hemp : (ch.filter (fun c => c.lessonId == l.id && trackIContains c.track code)).isEmpty = true
    · constructor
      · intro x hx
        rw [strictBucket, if_pos hemp] at hx
        exact ih1 x hx
      · intro x hx
        rw [strictBucket, if_pos hemp] at hx
        exact ih2 x hx
    · by_cases hml : ml.contains l.name = true
      · constructor
        · intro x hx
          rw [strictBucket, if_neg hemp, if_pos hml] at hx
          rcases List.mem_cons.mp hx with rfl | hx
          · exact hml
          · exact ih1 x hx
        · intro x hx
          rw [strictBucket, if_neg hemp, if_pos hml] at hx
          exact ih2 x hx
      · constructor
        · intro x hx
          rw [strictBucket, if_neg hemp, if_neg hml] at hx
          exact ih1 x hx
        · intro x hx
          rw [strictBucket, if_neg hemp, if_neg hml] at hx
          rcases List.mem_cons.mp hx with rfl | hx
          · exact Bool.eq_false_iff.mpr hml
          · exact ih2 x hx

/-! ## C9 -/

/-- C9: neither recommendation variant ever places the same lesson row in
both the specialized and the general bucket of a single result: whenever
`sort_lessons_for_student` returns (it can raise on lessons without chapters,
null tracks, or an unassigned `lmaj`), and whenever `get_lessons_for_student`
succeeds, the two returned lists are disjoint. -/
theorem C9_buckets_disjoint (userMajor : String) (lessons : List LessonRow)
    (chapters : List ChapterRow) :
    (∀ s g, sortLessonsForStudent userMajor lessons chapters = some (s, g) →
      ∀ l ∈ s, l ∉ g) ∧
    (∀ s g, getLessonsForStudent userMajor lessons chapters = .ok (s, g) →
      ∀ l ∈ s, l ∉ g) := by
  constructor
  · intro s g h l hls hlg
    simp only [sortLessonsForStudent] at h
    cases hb : bucketLessons userMajor (MAJOR_SUBJECTS userMajor) chapters lessons none with
    | none =>
      simp only [hb] at h
      exact Option.noConfusion h
    | some p =>
      simp only [hb] at h
      obtain ⟨s0, g0⟩ := p
      simp only [Option.some_inj, Prod.mk.injEq] at h
      obtain ⟨h1', h2'⟩ := h
      subst h1'
      subst h2'
      obtain ⟨hs0, hg0⟩ :=
        bucketLessons_spec userMajor (MAJOR_SUBJECTS userMajor) chapters lessons none s0 g0 hb
      have h1 := hs0 l ((sortByKey_mem _ s0 l).mp hls)
      have h2 := hg0 l ((sortByKey_mem _ g0 l).mp hlg)
      rw [h1] at h2
      exact Bool.noConfusion h2
  · intro s g h l hls hlg
    unfold getLessonsForStudent at h
    cases hc : MAJOR_TO_CODE userMajor with
    | none =>
      rw [hc] at h
      exact Except.noConfusion h
    | some code =>
      rw [hc] at h
      simp only [Except.ok.injEq] at h
      obtain ⟨hs0, hg0⟩ := strictBucket_spec code (MAJOR_SUBJECTS userMajor) chapters lessons
      have hseq : s = (strictBucket code (MAJOR_SUBJECTS userMajor) chapters lessons).1 := by
        rw [h]
      have hgeq : g = (strictBucket code (MAJOR_SUBJECTS userMajor) chapters lessons).2 := by
        rw [h]
      rw [hseq] at hls
      rw [hgeq] at hlg
      have h1 := hs0 l hls
      have h2 := hg0 l hlg
      rw [h1] at h2
      exact Bool.noConfusion h2

/-- Witness for C9 at a concrete catalog: the specialized biology lesson does
not appear in the (empty) general bucket. -/
theorem C9_witness : (⟨0, "زیست", "دوازدهم"⟩ : LessonRow) ∉ ([] : List LessonRow) :=
  (C9_buckets_disjoint "تجربی" [⟨0, "زیست", "دوازدهم"⟩] [⟨0, 0, 1, "ch", some "T"⟩]).1
    [⟨0, "زیست", "دوازدهم"⟩] [] (by decide) ⟨0, "زیست", "دوازدهم"⟩ (by decide)

end KKh
